import Mathlib

/-!
# jankdrone shared-memory registry (`copter/src/shm.cpp`)

A shallow embedding of the `Shm` variable registry: typed variables (`Shm::Var`),
groups of variables (`Shm::Group`) and the registry itself (`Shm`), followed by
theorems about lookup by path and tag, the typed accessors and `Group::array`.

Conventions of the embedding

* `Log::fatal` halts the firmware; a call that reaches it is modelled by the result
  `none`, a call that returns normally by `some _`.
* A null pointer result (`nullptr`) of the `IfExists` family is `none` as well; the
  fatal accessors and the `IfExists` accessors are separate definitions.
* `int` is the 32-bit two's complement integer of the target (ARM Cortex-M4),
  `size_t` the 32-bit unsigned integer; values are `Int`/`Nat` with explicit bounds.
* `std::string` is `String`; every operation goes through the list of characters,
  one `Char` standing for one `char`.
* `std::unordered_map` is an association list with pairwise distinct keys, listed in
  iteration order; the general theorems quantify over every such list, hence over
  every iteration order.
* The typed fields of the group objects (`thrusters.t3`, ...) live in a memory `Mem`
  that is split by type, so that `*(int*)m_value` reads the `int` object at `m_value`.
* A `Var*` handed out by a lookup points into a group's map; a `Var` is never modified
  after construction, so the pointer is represented by the `Var` it points to.
-/

namespace Jankdrone

/-! ## Machine integers -/

/-- The constant `std::numeric_limits<int>::max()`. -/
def INT_MAX : Int := 2147483647

/-- The constant `std::numeric_limits<int>::min()`. -/
def INT_MIN : Int := -2147483648

/-- Conversion of an `int` to `size_t` (32 bits, modular). -/
def toSizeT (i : Int) : Nat := (i % 4294967296).toNat

/-- Unsigned subtraction `n - 1` on `size_t`, wrapping at zero. -/
def sizePred (n : Nat) : Nat := (n + 4294967295) % 4294967296

/-! ## Strings -/

/-- Helper of `strFind`: first position of `c` in a character list. -/
def findChar (c : Char) : List Char → Option Nat
  | [] => none
  | x :: xs => if x = c then some 0 else (findChar c xs).map (· + 1)

/-- The call `name.find(c)`: position of the first `c`, `none` for `npos`. -/
def strFind (s : String) (c : Char) : Option Nat := findChar c s.data

/-- The call `s.substr(pos, len)`. -/
def substr (s : String) (pos len : Nat) : String := ⟨(s.data.drop pos).take len⟩

/-- The call `s.substr(pos)`. -/
def substrFrom (s : String) (pos : Nat) : String := ⟨s.data.drop pos⟩

/-- The test `isspace` of the C locale. -/
def isspace (c : Char) : Bool :=
  c = ' ' || c = '\t' || c = '\n' || c = '\x0b' || c = '\x0c' || c = '\r'

/-- The test `isdigit`. -/
def isdigit (c : Char) : Bool := 48 ≤ c.toNat && c.toNat ≤ 57

/-- Digit loop of `atoi`: accumulates decimal digits until the first non-digit
(the terminating NUL of `c_str()` included). -/
def parseDigits : List Char → Nat → Nat
  | [], acc => acc
  | c :: cs, acc => if isdigit c then parseDigits cs (acc * 10 + (c.toNat - 48)) else acc

/-- Saturation of `strtol` to the range of `long` (32 bits on the target). -/
def clampInt (z : Int) : Int :=
  if z > INT_MAX then INT_MAX else if z < INT_MIN then INT_MIN else z

/-- The libc function `atoi`, as `(int) strtol(s, NULL, 10)`: skips white space,
reads an optional sign and the longest run of decimal digits; no digits give 0. -/
def atoi (s : String) : Int :=
  match s.data.dropWhile isspace with
  | [] => 0
  | c :: r =>
    if c = '-' then clampInt (-(parseDigits r 0 : Int))
    else if c = '+' then clampInt (parseDigits r 0)
    else clampInt (parseDigits (c :: r) 0)

/-! ## Unordered maps -/

/-- The call `m.emplace(k, v)`: inserts the pair unless the key is already present. -/
def emplace {K V : Type} [DecidableEq K] (m : List (K × V)) (k : K) (v : V) : List (K × V) :=
  if k ∈ m.map Prod.fst then m else m ++ [(k, v)]

/-- The call `m.find(k)`: the value stored under `k`, if any. -/
def mapFind {K V : Type} [DecidableEq K] (m : List (K × V)) (k : K) : Option V :=
  match m with
  | [] => none
  | e :: es => if e.1 = k then some e.2 else mapFind es k

/-! ## Variables -/

/-- The enumeration `Shm::Var::Type`. -/
inductive VType
  | INT
  | FLOAT
  | BOOL
  | STRING
  deriving DecidableEq, Repr

/-- Address of a `Group` object (one of the members of `Shm`). -/
abbrev GroupPtr := Nat

/-- Address of a typed field of a group object, such as `&t3` inside the group at `obj`. -/
structure Addr where
  obj : GroupPtr
  field : String
  deriving DecidableEq, Repr

/-- The class `Shm::Var`: name, owning group, declared type, storage pointer, tag. -/
structure Var where
  m_name : String
  m_group : GroupPtr
  m_type : VType
  m_value : Addr
  m_tag : Int
  deriving DecidableEq, Repr

/-- Constructor `Var::Var(std::string, Group*, int*, int)`. -/
def Var.mkInt (name : String) (group : GroupPtr) (value : Addr) (tag : Int) : Var :=
  ⟨name, group, VType.INT, value, tag⟩

/-- Constructor `Var::Var(std::string, Group*, float*, int)`. -/
def Var.mkFloat (name : String) (group : GroupPtr) (value : Addr) (tag : Int) : Var :=
  ⟨name, group, VType.FLOAT, value, tag⟩

/-- Constructor `Var::Var(std::string, Group*, bool*, int)`. -/
def Var.mkBool (name : String) (group : GroupPtr) (value : Addr) (tag : Int) : Var :=
  ⟨name, group, VType.BOOL, value, tag⟩

/-- Constructor `Var::Var(std::string, Group*, std::string*, int)`. -/
def Var.mkString (name : String) (group : GroupPtr) (value : Addr) (tag : Int) : Var :=
  ⟨name, group, VType.STRING, value, tag⟩

/-- Accessor `Var::name`. -/
def Var.name (v : Var) : String := v.m_name

/-- Accessor `Var::type`. -/
def Var.type (v : Var) : VType := v.m_type

/-- Accessor `Var::tag`. -/
def Var.tag (v : Var) : Int := v.m_tag

/-- Accessor `Var::group`. -/
def Var.group (v : Var) : GroupPtr := v.m_group

/-- The function `Var::typeString`. -/
def Var.typeString : VType → String
  | VType.INT => "int"
  | VType.FLOAT => "float"
  | VType.BOOL => "bool"
  | VType.STRING => "string"

/-! ## Memory and typed access -/

/-- The typed fields of the group objects. A `float` is represented by the rational
number it denotes (every finite binary32 value is one). -/
structure Mem where
  ints : Addr → Int
  floats : Addr → ℚ
  bools : Addr → Bool
  strings : Addr → String

/-- Store through an `int*`. -/
def Mem.writeInt (m : Mem) (a : Addr) (x : Int) : Mem :=
  { m with ints := fun b => if b = a then x else m.ints b }

/-- Store through a `float*`. -/
def Mem.writeFloat (m : Mem) (a : Addr) (x : ℚ) : Mem :=
  { m with floats := fun b => if b = a then x else m.floats b }

/-- Store through a `bool*`. -/
def Mem.writeBool (m : Mem) (a : Addr) (x : Bool) : Mem :=
  { m with bools := fun b => if b = a then x else m.bools b }

/-- Store through a `std::string*`. -/
def Mem.writeString (m : Mem) (a : Addr) (x : String) : Mem :=
  { m with strings := fun b => if b = a then x else m.strings b }

/-- Number of low bits of `a` that do not fit a 24-bit significand (the first
argument bounds the number of halvings; `a` itself always suffices). -/
def excessBits : Nat → Nat → Nat
  | 0, _ => 0
  | f + 1, a => if a < 16777216 then 0 else excessBits f (a / 2) + 1

/-- Rounding of a natural number to a 24-bit significand, nearest with ties to even. -/
def roundNat24 (a : Nat) : Nat :=
  let k := excessBits a a
  let q := a / 2 ^ k
  let r := a % 2 ^ k
  let half := 2 ^ (k - 1)
  if k = 0 then a
  else if r > half ∨ (r = half ∧ q % 2 = 1) then (q + 1) * 2 ^ k else q * 2 ^ k

/-- The conversion `(float)value` of an `int` to binary32 (round to nearest, ties to
even); the result of converting an integer is again an integer. -/
def intToFloat (n : Int) : ℚ :=
  if n < 0 then -((roundNat24 n.natAbs : Nat) : ℚ) else ((roundNat24 n.natAbs : Nat) : ℚ)

/-- The function `Var::verifyType(Type)`: fatal unless the requested type is the
declared one. -/
def Var.verifyType (v : Var) (type : VType) : Option Unit :=
  if type ≠ v.m_type then none else some ()

/-- Modelled from the spec: the generic body of `Var::set<T>` is in `shm.h`, which
is not part of the sources at hand; "setting any other mismatched type combination
is a fatal type error", otherwise the value is stored. Instance `T = float`. -/
def Var.setFloat (v : Var) (m : Mem) (value : ℚ) : Option Mem :=
  (v.verifyType VType.FLOAT).map fun _ => m.writeFloat v.m_value value

/-- Modelled from the spec: generic `Var::set<T>` of `shm.h` (see `Var.setFloat`),
instance `T = bool`. -/
def Var.setBool (v : Var) (m : Mem) (value : Bool) : Option Mem :=
  (v.verifyType VType.BOOL).map fun _ => m.writeBool v.m_value value

/-- Modelled from the spec: generic `Var::set<T>` of `shm.h` (see `Var.setFloat`),
instance `T = std::string`. -/
def Var.setString (v : Var) (m : Mem) (value : String) : Option Mem :=
  (v.verifyType VType.STRING).map fun _ => m.writeString v.m_value value

/-- The specialisation `Var::set(int)`: a FLOAT variable takes the value through the
float path, any other variable must be INT. -/
def Var.setInt (v : Var) (m : Mem) (value : Int) : Option Mem :=
  if v.m_type = VType.FLOAT then v.setFloat m (intToFloat value)
  else (v.verifyType VType.INT).map fun _ => m.writeInt v.m_value value

/-- The specialisation `Var::set(const char*)`: builds a `std::string` from the
characters before the first NUL and stores it. -/
def Var.setCStr (v : Var) (m : Mem) (value : List Char) : Option Mem :=
  v.setString m ⟨value.takeWhile (· ≠ '\x00')⟩

/-- The specialisation `Var::get<float>`: an INT variable is read and widened, any
other variable must be FLOAT. -/
def Var.getFloat (v : Var) (m : Mem) : Option ℚ :=
  if v.m_type = VType.INT then some (intToFloat (m.ints v.m_value))
  else (v.verifyType VType.FLOAT).map fun _ => m.floats v.m_value

/-- Modelled from the spec: the generic body of `Var::get<T>` is in `shm.h`, which
is not part of the sources at hand; "T must match the declared type", "any other
mismatch is a fatal type error", otherwise the current value is returned.
Instance `T = int`. -/
def Var.getInt (v : Var) (m : Mem) : Option Int :=
  (v.verifyType VType.INT).map fun _ => m.ints v.m_value

/-- Modelled from the spec: generic `Var::get<T>` of `shm.h` (see `Var.getInt`),
instance `T = bool`. -/
def Var.getBool (v : Var) (m : Mem) : Option Bool :=
  (v.verifyType VType.BOOL).map fun _ => m.bools v.m_value

/-- Modelled from the spec: generic `Var::get<T>` of `shm.h` (see `Var.getInt`),
instance `T = std::string`. -/
def Var.getString (v : Var) (m : Mem) : Option String :=
  (v.verifyType VType.STRING).map fun _ => m.strings v.m_value

/-! ## Groups -/

/-- The class `Shm::Group`: a name and the map `m_vars` from variable name to variable. -/
structure Group where
  m_name : String
  m_vars : List (String × Var)
  deriving DecidableEq, Repr

/-- Constructor `Group::Group(name, vars)`: emplaces every variable under its name. -/
def Group.ctor (name : String) (vars : List Var) : Group :=
  ⟨name, vars.foldl (fun m v => emplace m v.name v) []⟩

/-- Accessor `Group::name`. -/
def Group.name (g : Group) : String := g.m_name

/-- The function `Group::varIfExists`. -/
def Group.varIfExists (g : Group) (name : String) : Option Var := mapFind g.m_vars name

/-- The function `Group::var`: fatal when the variable does not exist. -/
def Group.var (g : Group) (name : String) : Option Var :=
  match g.varIfExists name with
  | none => none
  | some v => some v

/-- The function `Group::vars`. -/
def Group.vars (g : Group) : List Var := g.m_vars.map Prod.snd

/-- Local state of the scanning loop of `Group::array`. -/
structure ArrayScan where
  indexMap : List (Int × Var)
  minI : Int
  maxI : Int
  deriving DecidableEq, Repr

/-- The test of the scanning loop: the name is longer than the given leading string
and starts with it. -/
def nameMatches (pfx name : String) : Bool :=
  decide (name.length > pfx.length) && decide (substr name 0 pfx.length = pfx)

/-- One iteration of the scanning loop of `Group::array`. -/
def arrayStep (pfx : String) (st : ArrayScan) (vItem : String × Var) : ArrayScan :=
  let v := vItem.2
  let name := v.name
  if nameMatches pfx name then
    let i := atoi (substrFrom name pfx.length)
    { indexMap := emplace st.indexMap i v
      maxI := if i > st.maxI then i else st.maxI
      minI := if i < st.minI then i else st.minI }
  else st

/-- The scanning loop of `Group::array` over the members in iteration order. -/
def arrayScan (pfx : String) (vars : List (String × Var)) : ArrayScan :=
  vars.foldl (arrayStep pfx) ⟨[], INT_MAX, INT_MIN⟩

/-- The filling loop of `Group::array`: `array[item.first] = item.second`. -/
def arrayFill (indexMap : List (Int × Var)) (array : List (Option Var)) : List (Option Var) :=
  indexMap.foldl (fun arr item => arr.set (toSizeT item.1) (some item.2)) array

/-- The function `Group::array`: `none` when the integrity check is fatal, otherwise
the vector of `maxI + 1` pointers (a null pointer is an entry `none`). -/
def Group.array (g : Group) (pfx : String) : Option (List (Option Var)) :=
  let st := arrayScan pfx g.m_vars
  if st.minI ≠ 0 ∨ toSizeT st.maxI ≠ sizePred st.indexMap.length then none
  else some (arrayFill st.indexMap (List.replicate (toSizeT (st.maxI + 1)) none))

/-! ## The declared groups

The declaration lists below are the initialiser lists the group constructors pass to
`Group::Group`. The field declarations themselves (`float t3;` and so on) are in `shm.h`,
which is not among the sources at hand; the type of each field, hence the `Var`
constructor that the pointer `&field` selects, is read off its member initialiser
(`false`/`true`: `bool`, `0.0`: `float`, an integer literal: `int`). The thrusters are
float by the specification as well. -/

/-- Declaration list of `Group_controller`. -/
def Group_controller.decls (this : GroupPtr) : List Var :=
  [Var.mkBool "enabled" this ⟨this, "enabled"⟩ 0]

/-- Declaration list of `Group_controllerOut`. -/
def Group_controllerOut.decls (this : GroupPtr) : List Var :=
  [Var.mkFloat "pitch" this ⟨this, "pitch"⟩ 1,
   Var.mkFloat "roll" this ⟨this, "roll"⟩ 2,
   Var.mkFloat "yaw" this ⟨this, "yaw"⟩ 3]

/-- Declaration list of `Group_desires`. -/
def Group_desires.decls (this : GroupPtr) : List Var :=
  [Var.mkFloat "force" this ⟨this, "force"⟩ 4,
   Var.mkFloat "pitch" this ⟨this, "pitch"⟩ 5,
   Var.mkFloat "roll" this ⟨this, "roll"⟩ 6,
   Var.mkFloat "yaw" this ⟨this, "yaw"⟩ 7]

/-- Declaration list of `Group_led`. -/
def Group_led.decls (this : GroupPtr) : List Var :=
  [Var.mkInt "brightness" this ⟨this, "brightness"⟩ 8,
   Var.mkInt "maxHue" this ⟨this, "maxHue"⟩ 9,
   Var.mkInt "minHue" this ⟨this, "minHue"⟩ 10,
   Var.mkInt "pattern" this ⟨this, "pattern"⟩ 11,
   Var.mkInt "periodMs" this ⟨this, "periodMs"⟩ 12]

/-- Declaration list of `Group_pitchConf`. -/
def Group_pitchConf.decls (this : GroupPtr) : List Var :=
  [Var.mkFloat "d" this ⟨this, "d"⟩ 13,
   Var.mkBool "enabled" this ⟨this, "enabled"⟩ 14,
   Var.mkFloat "i" this ⟨this, "i"⟩ 15,
   Var.mkFloat "p" this ⟨this, "p"⟩ 16]

/-- Declaration list of `Group_placement`. -/
def Group_placement.decls (this : GroupPtr) : List Var :=
  [Var.mkFloat "altitude" this ⟨this, "altitude"⟩ 17,
   Var.mkFloat "pitch" this ⟨this, "pitch"⟩ 18,
   Var.mkFloat "roll" this ⟨this, "roll"⟩ 19,
   Var.mkFloat "yaw" this ⟨this, "yaw"⟩ 20]

/-- Declaration list of `Group_power`. -/
def Group_power.decls (this : GroupPtr) : List Var :=
  [Var.mkBool "critical" this ⟨this, "critical"⟩ 21,
   Var.mkBool "low" this ⟨this, "low"⟩ 22,
   Var.mkFloat "voltage" this ⟨this, "voltage"⟩ 23]

/-- Declaration list of `Group_rollConf`. -/
def Group_rollConf.decls (this : GroupPtr) : List Var :=
  [Var.mkFloat "d" this ⟨this, "d"⟩ 24,
   Var.mkBool "enabled" this ⟨this, "enabled"⟩ 25,
   Var.mkFloat "i" this ⟨this, "i"⟩ 26,
   Var.mkFloat "p" this ⟨this, "p"⟩ 27]

/-- Declaration list of `Group_switches`. -/
def Group_switches.decls (this : GroupPtr) : List Var :=
  [Var.mkBool "calibrateEscs" this ⟨this, "calibrateEscs"⟩ 28,
   Var.mkBool "calibrateImu" this ⟨this, "calibrateImu"⟩ 29,
   Var.mkBool "softKill" this ⟨this, "softKill"⟩ 30]

/-- Declaration list of `Group_temperature`. -/
def Group_temperature.decls (this : GroupPtr) : List Var :=
  [Var.mkFloat "gyro" this ⟨this, "gyro"⟩ 31]

/-- Declaration list of `Group_thrusters`. -/
def Group_thrusters.decls (this : GroupPtr) : List Var :=
  [Var.mkFloat "t0" this ⟨this, "t0"⟩ 32,
   Var.mkFloat "t1" this ⟨this, "t1"⟩ 33,
   Var.mkFloat "t2" this ⟨this, "t2"⟩ 34,
   Var.mkFloat "t3" this ⟨this, "t3"⟩ 35,
   Var.mkFloat "t4" this ⟨this, "t4"⟩ 36,
   Var.mkFloat "t5" this ⟨this, "t5"⟩ 37,
   Var.mkFloat "t6" this ⟨this, "t6"⟩ 38,
   Var.mkFloat "t7" this ⟨this, "t7"⟩ 39]

/-- Declaration list of `Group_yawConf`. -/
def Group_yawConf.decls (this : GroupPtr) : List Var :=
  [Var.mkFloat "d" this ⟨this, "d"⟩ 40,
   Var.mkBool "enabled" this ⟨this, "enabled"⟩ 41,
   Var.mkFloat "i" this ⟨this, "i"⟩ 42,
   Var.mkFloat "p" this ⟨this, "p"⟩ 43]

/-- Constructor `Group_controller::Group_controller`, base-class part. -/
def Group_controller (this : GroupPtr) : Group :=
  Group.ctor "controller" (Group_controller.decls this)

/-- Constructor `Group_controllerOut::Group_controllerOut`, base-class part. -/
def Group_controllerOut (this : GroupPtr) : Group :=
  Group.ctor "controllerOut" (Group_controllerOut.decls this)

/-- Constructor `Group_desires::Group_desires`, base-class part. -/
def Group_desires (this : GroupPtr) : Group :=
  Group.ctor "desires" (Group_desires.decls this)

/-- Constructor `Group_led::Group_led`, base-class part. -/
def Group_led (this : GroupPtr) : Group :=
  Group.ctor "led" (Group_led.decls this)

/-- Constructor `Group_pitchConf::Group_pitchConf`, base-class part. -/
def Group_pitchConf (this : GroupPtr) : Group :=
  Group.ctor "pitchConf" (Group_pitchConf.decls this)

/-- Constructor `Group_placement::Group_placement`, base-class part. -/
def Group_placement (this : GroupPtr) : Group :=
  Group.ctor "placement" (Group_placement.decls this)

/-- Constructor `Group_power::Group_power`, base-class part. -/
def Group_power (this : GroupPtr) : Group :=
  Group.ctor "power" (Group_power.decls this)

/-- Constructor `Group_rollConf::Group_rollConf`, base-class part. -/
def Group_rollConf (this : GroupPtr) : Group :=
  Group.ctor "rollConf" (Group_rollConf.decls this)

/-- Constructor `Group_switches::Group_switches`, base-class part. -/
def Group_switches (this : GroupPtr) : Group :=
  Group.ctor "switches" (Group_switches.decls this)

/-- Constructor `Group_temperature::Group_temperature`, base-class part. -/
def Group_temperature (this : GroupPtr) : Group :=
  Group.ctor "temperature" (Group_temperature.decls this)

/-- Constructor `Group_thrusters::Group_thrusters`, base-class part. -/
def Group_thrusters (this : GroupPtr) : Group :=
  Group.ctor "thrusters" (Group_thrusters.decls this)

/-- Constructor `Group_yawConf::Group_yawConf`, base-class part. -/
def Group_yawConf (this : GroupPtr) : Group :=
  Group.ctor "yawConf" (Group_yawConf.decls this)

/-! ## Initial values of the group fields -/

/-- Memory before any member initialiser has run (static storage is zeroed). -/
def Mem.zero : Mem := ⟨fun _ => 0, fun _ => 0, fun _ => false, fun _ => ""⟩

/-- Member initialisers of `Group_controller`. -/
def Group_controller.init (this : GroupPtr) (m : Mem) : Mem :=
  m.writeBool ⟨this, "enabled"⟩ false

/-- Member initialisers of `Group_controllerOut`. -/
def Group_controllerOut.init (this : GroupPtr) (m : Mem) : Mem :=
  ((m.writeFloat ⟨this, "pitch"⟩ 0).writeFloat ⟨this, "roll"⟩ 0).writeFloat ⟨this, "yaw"⟩ 0

/-- Member initialisers of `Group_desires`. -/
def Group_desires.init (this : GroupPtr) (m : Mem) : Mem :=
  (((m.writeFloat ⟨this, "force"⟩ 0).writeFloat ⟨this, "pitch"⟩ 0).writeFloat
    ⟨this, "roll"⟩ 0).writeFloat ⟨this, "yaw"⟩ 0

/-- Member initialisers of `Group_led`. -/
def Group_led.init (this : GroupPtr) (m : Mem) : Mem :=
  ((((m.writeInt ⟨this, "brightness"⟩ 8).writeInt ⟨this, "maxHue"⟩ 188).writeInt
    ⟨this, "minHue"⟩ 114).writeInt ⟨this, "pattern"⟩ 1).writeInt ⟨this, "periodMs"⟩ 250

/-- Member initialisers of `Group_pitchConf`; `0.01` is stored as the nearest binary32
value `10737418 / 2 ^ 30`. -/
def Group_pitchConf.init (this : GroupPtr) (m : Mem) : Mem :=
  (((m.writeFloat ⟨this, "d"⟩ 0).writeBool ⟨this, "enabled"⟩ false).writeFloat
    ⟨this, "i"⟩ 0).writeFloat ⟨this, "p"⟩ (10737418 / 1073741824)

/-- Member initialisers of `Group_placement`. -/
def Group_placement.init (this : GroupPtr) (m : Mem) : Mem :=
  (((m.writeFloat ⟨this, "altitude"⟩ 0).writeFloat ⟨this, "pitch"⟩ 0).writeFloat
    ⟨this, "roll"⟩ 0).writeFloat ⟨this, "yaw"⟩ 0

/-- Member initialisers of `Group_power`. -/
def Group_power.init (this : GroupPtr) (m : Mem) : Mem :=
  ((m.writeBool ⟨this, "critical"⟩ false).writeBool ⟨this, "low"⟩ false).writeFloat
    ⟨this, "voltage"⟩ 0

/-- Member initialisers of `Group_rollConf`. -/
def Group_rollConf.init (this : GroupPtr) (m : Mem) : Mem :=
  (((m.writeFloat ⟨this, "d"⟩ 0).writeBool ⟨this, "enabled"⟩ false).writeFloat
    ⟨this, "i"⟩ 0).writeFloat ⟨this, "p"⟩ (10737418 / 1073741824)

/-- Member initialisers of `Group_switches`. -/
def Group_switches.init (this : GroupPtr) (m : Mem) : Mem :=
  ((m.writeBool ⟨this, "calibrateEscs"⟩ false).writeBool ⟨this, "calibrateImu"⟩ false).writeBool
    ⟨this, "softKill"⟩ true

/-- Member initialisers of `Group_temperature`. -/
def Group_temperature.init (this : GroupPtr) (m : Mem) : Mem :=
  m.writeFloat ⟨this, "gyro"⟩ 0

/-- Member initialisers of `Group_thrusters`. -/
def Group_thrusters.init (this : GroupPtr) (m : Mem) : Mem :=
  (((((((m.writeFloat ⟨this, "t0"⟩ 0).writeFloat ⟨this, "t1"⟩ 0).writeFloat
    ⟨this, "t2"⟩ 0).writeFloat ⟨this, "t3"⟩ 0).writeFloat ⟨this, "t4"⟩ 0).writeFloat
    ⟨this, "t5"⟩ 0).writeFloat ⟨this, "t6"⟩ 0).writeFloat ⟨this, "t7"⟩ 0

/-- Member initialisers of `Group_yawConf`; `0.001` is stored as the nearest binary32
value `8589935 / 2 ^ 33`. -/
def Group_yawConf.init (this : GroupPtr) (m : Mem) : Mem :=
  (((m.writeFloat ⟨this, "d"⟩ 0).writeBool ⟨this, "enabled"⟩ false).writeFloat
    ⟨this, "i"⟩ 0).writeFloat ⟨this, "p"⟩ (8589935 / 8589934592)

/-! ## The registry -/

/-- Modelled from the spec: the number of slots of the array `m_tagMap`, declared in
`shm.h` (not part of the sources at hand): "a tag-indexed table sized to the maximum
tag value", that is one slot for each of the tags 0..43. -/
def TAG_MAP_SIZE : Nat := 44

/-- The class `Shm`: the group objects (the object at address `p` is `objs[p]`), the
map `m_groups` from group name to group address, the table `m_tagMap` and the values
of the typed fields of the group objects. -/
structure Shm where
  objs : List Group
  m_groups : List (String × GroupPtr)
  m_tagMap : List (Option Var)
  mem : Mem

/-- Dereference of a `Group*`. -/
def Shm.deref (s : Shm) (p : GroupPtr) : Option Group := s.objs.get? p

/-- The store `m_tagMap[v->tag()] = v` of the constructor (a tag outside the table
would write out of bounds; the table is then left as it is). -/
def tagMapStore (tagMap : List (Option Var)) (v : Var) : List (Option Var) :=
  if 0 ≤ v.tag ∧ v.tag < TAG_MAP_SIZE then tagMap.set v.tag.toNat (some v) else tagMap

/-- The group members of `Shm` in declaration order, at addresses 0..11. -/
def Shm.groupObjects : List Group :=
  [Group_controller 0, Group_controllerOut 1, Group_desires 2, Group_led 3,
   Group_pitchConf 4, Group_placement 5, Group_power 6, Group_rollConf 7,
   Group_switches 8, Group_temperature 9, Group_thrusters 10, Group_yawConf 11]

/-- The initialiser list of `m_groups` in `Shm::Shm`. -/
def Shm.groupTable : List (String × GroupPtr) :=
  [("controller", 0), ("controllerOut", 1), ("desires", 2), ("led", 3),
   ("pitchConf", 4), ("placement", 5), ("power", 6), ("rollConf", 7),
   ("switches", 8), ("temperature", 9), ("thrusters", 10), ("yawConf", 11)]

/-- The values of the group fields after all group constructors have run. -/
def Shm.initMem : Mem :=
  Group_yawConf.init 11 (Group_thrusters.init 10 (Group_temperature.init 9
    (Group_switches.init 8 (Group_rollConf.init 7 (Group_power.init 6
      (Group_placement.init 5 (Group_pitchConf.init 4 (Group_led.init 3
        (Group_desires.init 2 (Group_controllerOut.init 1
          (Group_controller.init 0 Mem.zero)))))))))))

/-- The loop of `Shm::Shm` filling the tag table from every group's `vars()`. -/
def fillTagMap (objs : List Group) (m_groups : List (String × GroupPtr)) :
    List (Option Var) :=
  m_groups.foldl
    (fun t g => match objs.get? g.2 with
      | some grp => grp.vars.foldl tagMapStore t
      | none => t)
    (List.replicate TAG_MAP_SIZE none)

/-- Constructor `Shm::Shm`. -/
def Shm.ctor : Shm :=
  let m_groups := Shm.groupTable.foldl (fun m e => emplace m e.1 e.2) []
  ⟨Shm.groupObjects, m_groups, fillTagMap Shm.groupObjects m_groups, Shm.initMem⟩

/-- The function `Var::path`: `m_group->name() + "." + m_name`. -/
def Var.path (s : Shm) (v : Var) : Option String :=
  (s.deref v.m_group).map fun g => g.name ++ "." ++ v.m_name

/-- The function `Shm::groupIfExists`. -/
def Shm.groupIfExists (s : Shm) (name : String) : Option GroupPtr := mapFind s.m_groups name

/-- The function `Shm::group`: fatal when the group does not exist. -/
def Shm.group (s : Shm) (name : String) : Option GroupPtr :=
  match s.groupIfExists name with
  | none => none
  | some g => some g

/-- The function `Shm::varIfExists(std::string)`. -/
def Shm.varIfExists (s : Shm) (name : String) : Option Var :=
  match strFind name '.' with
  | none => none
  | some dotPos =>
    let groupName := substr name 0 dotPos
    match s.groupIfExists groupName with
    | some g =>
      let varName := substrFrom name (dotPos + 1)
      (s.deref g).bind fun grp => grp.varIfExists varName
    | none => none

/-- The function `Shm::varIfExists(int)`. -/
def Shm.varIfExistsTag (s : Shm) (tag : Int) : Option Var :=
  if tag < 0 ∨ toSizeT tag ≥ TAG_MAP_SIZE then none
  else (s.m_tagMap.get? tag.toNat).join

/-- The function `Shm::var(std::string)`: fatal when the lookup finds nothing. -/
def Shm.var (s : Shm) (name : String) : Option Var :=
  match s.varIfExists name with
  | none => none
  | some v => some v

/-- The function `Shm::var(int)`: fatal when the lookup finds nothing. -/
def Shm.varTag (s : Shm) (tag : Int) : Option Var :=
  match s.varIfExistsTag tag with
  | none => none
  | some v => some v

/-- The function `Shm::groups`. -/
def Shm.groups (s : Shm) : List GroupPtr := s.m_groups.map Prod.snd

/-- The declaration lists of the twelve group constructors, in the order of the
group objects. -/
def Shm.groupDecls : List (List Var) :=
  [Group_controller.decls 0, Group_controllerOut.decls 1, Group_desires.decls 2,
   Group_led.decls 3, Group_pitchConf.decls 4, Group_placement.decls 5,
   Group_power.decls 6, Group_rollConf.decls 7, Group_switches.decls 8,
   Group_temperature.decls 9, Group_thrusters.decls 10, Group_yawConf.decls 11]

/-- Every variable declared by the group constructors, group by group. -/
def Shm.declared : List Var := Shm.groupDecls.flatten

/-- The call sequence `shm.var(tag)->get<float>()`. -/
def Shm.getFloatAtTag (s : Shm) (tag : Int) : Option ℚ :=
  (s.varTag tag).bind fun v => v.getFloat s.mem

/-- The call sequence `shm.var(tag)->set<float>(x)`; the result is the registry with
the new field values. -/
def Shm.setFloatAtTag (s : Shm) (tag : Int) (x : ℚ) : Option Shm :=
  (s.varTag tag).bind fun v =>
    (v.setFloat s.mem x).map fun m => ⟨s.objs, s.m_groups, s.m_tagMap, m⟩

/-- The call sequence `shm.var(path)->get<float>()`. -/
def Shm.getFloatAtPath (s : Shm) (path : String) : Option ℚ :=
  (s.var path).bind fun v => v.getFloat s.mem

/-! ## Notions used to state the properties of `Group::array` -/

/-- The invariant of the map `m_vars`: keys are pairwise distinct and every variable is
stored under its own name. -/
def Group.WF (g : Group) : Prop :=
  (g.m_vars.map Prod.fst).Nodup ∧ ∀ e ∈ g.m_vars, e.2.name = e.1

/-- The members visited by the scanning loop whose names pass its test. -/
def matchingVars (pfx : String) (vars : List (String × Var)) : List Var :=
  (vars.map Prod.snd).filter fun v => nameMatches pfx v.name

/-- The index the scanning loop parses from a member name. -/
def parsedIndex (pfx : String) (v : Var) : Int := atoi (substrFrom v.name pfx.length)

/-- The indices parsed from the matching names of a group, in iteration order. -/
def parsedIndices (g : Group) (pfx : String) : List Int :=
  (matchingVars pfx g.m_vars).map (parsedIndex pfx)

/-- The body of the scanning loop for a member that passes the test. -/
def scanStep (pfx : String) (st : ArrayScan) (v : Var) : ArrayScan :=
  { indexMap := emplace st.indexMap (parsedIndex pfx v) v
    maxI := if parsedIndex pfx v > st.maxI then parsedIndex pfx v else st.maxI
    minI := if parsedIndex pfx v < st.minI then parsedIndex pfx v else st.minI }

/-- The parsed indices form a dense zero-based range: 0 occurs, nothing is negative, and
the largest index is the number of distinct indices minus one. -/
def DenseIndices (I : List Int) : Prop :=
  0 ∈ I ∧ (∀ k ∈ I, 0 ≤ k) ∧ ∃ m ∈ I, (∀ k ∈ I, k ≤ m) ∧ m + 1 = (I.dedup.length : Int)

/-! ## Sample groups -/

/-- A group declaring `t0, t1, t2, t4, t5, t6, t7`: index 3 is missing. -/
def gapGroup : Group :=
  Group.ctor "thrusters"
    [Var.mkFloat "t0" 0 ⟨0, "t0"⟩ 32, Var.mkFloat "t1" 0 ⟨0, "t1"⟩ 33,
     Var.mkFloat "t2" 0 ⟨0, "t2"⟩ 34, Var.mkFloat "t4" 0 ⟨0, "t4"⟩ 36,
     Var.mkFloat "t5" 0 ⟨0, "t5"⟩ 37, Var.mkFloat "t6" 0 ⟨0, "t6"⟩ 38,
     Var.mkFloat "t7" 0 ⟨0, "t7"⟩ 39]

/-- A group declaring `t0` and `t00`: two names with the same parsed index. -/
def dupGroup : Group :=
  Group.ctor "thrusters" [Var.mkFloat "t0" 0 ⟨0, "t0"⟩ 32, Var.mkFloat "t00" 0 ⟨0, "t00"⟩ 33]

/-! ## Execution of `Var::set` with the memory at every exit -/

/-- The argument of a call of `Var::set<T>`: the value passed and, through its constructor,
the type `T` of the call. -/
inductive SetCall
  | int (value : Int)
  | float (value : ℚ)
  | bool (value : Bool)
  | string (value : String)
  | cstr (value : List Char)

/-- Modelled from the spec: `Log::fatal` (declared in `log.h`, not among the sources at
hand) is the "abort with message" primitive and does not return. A body of the shape
`verifyType(type); store;` therefore ends either after the store, or in `Log::fatal` with
the store not reached. The pair is the memory at the end of the call and whether the call
returned (`true`) or halted (`false`). -/
def Var.verifyThenStore (v : Var) (type : VType) (m stored : Mem) : Mem × Bool :=
  match v.verifyType type with
  | some _ => (stored, true)
  | none => (m, false)

/-- The memory at the end of a call of `Var::set<T>` on `v`, and whether the call returned.
`set(int)` and `set(const char*)` are the specialisations of `shm.cpp`; the other three
are the generic body (see `Var.setFloat`). -/
def Var.setExec (v : Var) (m : Mem) : SetCall → Mem × Bool
  | SetCall.int value =>
    if v.m_type = VType.FLOAT then
      v.verifyThenStore VType.FLOAT m (m.writeFloat v.m_value (intToFloat value))
    else v.verifyThenStore VType.INT m (m.writeInt v.m_value value)
  | SetCall.float value => v.verifyThenStore VType.FLOAT m (m.writeFloat v.m_value value)
  | SetCall.bool value => v.verifyThenStore VType.BOOL m (m.writeBool v.m_value value)
  | SetCall.string value => v.verifyThenStore VType.STRING m (m.writeString v.m_value value)
  | SetCall.cstr value =>
    v.verifyThenStore VType.STRING m
      (m.writeString v.m_value ⟨value.takeWhile (· ≠ '\x00')⟩)

/-- The result of the same call in the form used by `Var.setInt` and its siblings: the new
memory when the call returned, `none` when it halted. -/
def Var.setResult (v : Var) (m : Mem) (c : SetCall) : Option Mem :=
  if (v.setExec m c).2 then some (v.setExec m c).1 else none

/-- The registry with the values of the group fields replaced. -/
def Shm.withMem (s : Shm) (m : Mem) : Shm := ⟨s.objs, s.m_groups, s.m_tagMap, m⟩

/-- The registry at the end of a call of `Var::set<T>` on the variable `v`. -/
def Shm.afterSet (s : Shm) (v : Var) (c : SetCall) : Shm := s.withMem (v.setExec s.mem c).1

/-- The string is a base-10 integer: a non-empty run of decimal digits. -/
def isDecimalNumeral (s : String) : Bool := !s.data.isEmpty && s.data.all isdigit

/-! ## Lemmas: `atoi` on decimal numerals -/

theorem digitChar_isdigit (d : Nat) (h : d < 10) :
    isdigit (Nat.digitChar d) = true ∧ (Nat.digitChar d).toNat - 48 = d := by
  interval_cases d <;> decide

theorem parseDigits_toDigitsCore (f : Nat) : ∀ n, n < f → ∃ k, ∀ ds acc,
    parseDigits (Nat.toDigitsCore 10 f n ds) acc = parseDigits ds (acc * 10 ^ k + n) := by
  induction f with
  | zero => intro n h; omega
  | succ f ih =>
    intro n hn
    have hd := digitChar_isdigit (n % 10) (Nat.mod_lt _ (by decide))
    by_cases h0 : n / 10 = 0
    · refine ⟨1, fun ds acc => ?_⟩
      have : n % 10 = n := by omega
      simp only [Nat.toDigitsCore, h0, if_true, parseDigits, hd.1, hd.2, pow_one]
      rw [this]
    · obtain ⟨k, hk⟩ := ih (n / 10) (by omega)
      refine ⟨k + 1, fun ds acc => ?_⟩
      simp only [Nat.toDigitsCore, h0, if_false]
      rw [hk]
      simp only [parseDigits, hd.1, hd.2, if_true]
      congr 1
      rw [pow_succ]
      have := Nat.div_add_mod n 10
      nlinarith

theorem toDigitsCore_head (f : Nat) : ∀ n c ds, isdigit c = true →
    ∃ c' r, Nat.toDigitsCore 10 f n (c :: ds) = c' :: r ∧ isdigit c' = true := by
  induction f with
  | zero => intro n c ds h; exact ⟨c, ds, rfl, h⟩
  | succ f ih =>
    intro n c ds h
    have hd := digitChar_isdigit (n % 10) (Nat.mod_lt _ (by decide))
    by_cases h0 : n / 10 = 0
    · refine ⟨(n % 10).digitChar, c :: ds, ?_, hd.1⟩
      simp only [Nat.toDigitsCore, h0, if_true]
    · simp only [Nat.toDigitsCore, h0, if_false]
      exact ih _ _ _ hd.1

theorem repr_head (n : Nat) : ∃ c r, (Nat.repr n).data = c :: r ∧ isdigit c = true := by
  have hd := digitChar_isdigit (n % 10) (Nat.mod_lt _ (by decide))
  show ∃ c r, Nat.toDigitsCore 10 (n + 1) n [] = c :: r ∧ isdigit c = true
  by_cases h0 : n / 10 = 0
  · refine ⟨(n % 10).digitChar, [], ?_, hd.1⟩
    simp only [Nat.toDigitsCore, h0, if_true]
  · simp only [Nat.toDigitsCore, h0, if_false]
    exact toDigitsCore_head _ _ _ _ hd.1

theorem isdigit_not_special (c : Char) (h : isdigit c = true) :
    isspace c = false ∧ c ≠ '-' ∧ c ≠ '+' := by
  refine ⟨?_, ?_, ?_⟩
  · by_contra hs
    simp only [Bool.not_eq_false, isspace, Bool.or_eq_true, decide_eq_true_eq] at hs
    rcases hs with ((((rfl | rfl) | rfl) | rfl) | rfl) | rfl <;> exact absurd h (by decide)
  · rintro rfl; exact absurd h (by decide)
  · rintro rfl; exact absurd h (by decide)

theorem clampInt_range (z : Int) : INT_MIN ≤ clampInt z ∧ clampInt z ≤ INT_MAX := by
  unfold clampInt INT_MIN INT_MAX
  split_ifs <;> omega

theorem clampInt_id (z : Int) (h1 : INT_MIN ≤ z) (h2 : z ≤ INT_MAX) : clampInt z = z := by
  unfold clampInt INT_MIN INT_MAX at *
  split_ifs <;> omega

theorem atoi_range (s : String) : INT_MIN ≤ atoi s ∧ atoi s ≤ INT_MAX := by
  unfold atoi
  split
  · unfold INT_MIN INT_MAX; omega
  · split_ifs <;> exact clampInt_range _

theorem atoi_repr (n : Nat) (h : (n : Int) ≤ INT_MAX) : atoi (Nat.repr n) = n := by
  obtain ⟨c, r, hcr, hc⟩ := repr_head n
  obtain ⟨hs, hm, hp⟩ := isdigit_not_special c hc
  obtain ⟨k, hk⟩ := parseDigits_toDigitsCore (n + 1) n (Nat.lt_succ_self n)
  have hparse : parseDigits (Nat.repr n).data 0 = n := by
    have := hk [] 0
    simpa [parseDigits] using this
  unfold atoi
  rw [hcr, List.dropWhile_cons_of_neg (by simp [hs])]
  simp only [hm, hp, if_false]
  rw [← hcr, hparse]
  apply clampInt_id
  · unfold INT_MIN; omega
  · exact h

/-! ## Lemmas: the scanning loop of `Group::array` -/

theorem foldl_arrayStep (pfx : String) (vars : List (String × Var)) : ∀ st,
    vars.foldl (arrayStep pfx) st = (matchingVars pfx vars).foldl (scanStep pfx) st := by
  induction vars with
  | nil => intro st; rfl
  | cons e es ih =>
    intro st
    rw [List.foldl_cons, ih]
    by_cases hm : nameMatches pfx e.2.name = true
    · have h1 : matchingVars pfx (e :: es) = e.2 :: matchingVars pfx es := by
        simp only [matchingVars, List.map_cons]
        rw [List.filter_cons_of_pos (by simpa using hm)]
      have h2 : arrayStep pfx st e = scanStep pfx st e.2 := by
        simp only [arrayStep, scanStep, parsedIndex, hm, if_true]
      rw [h1, h2, List.foldl_cons]
    · have h1 : matchingVars pfx (e :: es) = matchingVars pfx es := by
        simp only [matchingVars, List.map_cons]
        rw [List.filter_cons_of_neg (by simpa using hm)]
      have h2 : arrayStep pfx st e = st := by
        simp only [arrayStep, hm]
        rfl
      rw [h1, h2]

theorem emplace_keys {K V : Type} [DecidableEq K] (m : List (K × V)) (k : K) (v : V) :
    (emplace m k v).map Prod.fst =
      if k ∈ m.map Prod.fst then m.map Prod.fst else m.map Prod.fst ++ [k] := by
  unfold emplace
  split_ifs <;> simp

theorem emplace_nodup {K V : Type} [DecidableEq K] (m : List (K × V)) (k : K) (v : V)
    (h : (m.map Prod.fst).Nodup) : ((emplace m k v).map Prod.fst).Nodup := by
  rw [emplace_keys]
  split_ifs with hk
  · exact h
  · rw [List.nodup_append]
    refine ⟨h, List.nodup_singleton k, ?_⟩
    intro a ha hb
    rw [List.mem_singleton] at hb
    exact hk (hb ▸ ha)

theorem mem_emplace_keys {K V : Type} [DecidableEq K] (m : List (K × V)) (k k' : K) (v : V) :
    k' ∈ (emplace m k v).map Prod.fst ↔ k' ∈ m.map Prod.fst ∨ k' = k := by
  rw [emplace_keys]
  split_ifs with hk
  · constructor
    · exact Or.inl
    · rintro (h | rfl)
      · exact h
      · exact hk
  · simp

theorem mem_emplace {K V : Type} [DecidableEq K] (m : List (K × V)) (k : K) (v : V)
    (e : K × V) (h : e ∈ emplace m k v) : e ∈ m ∨ e = (k, v) := by
  unfold emplace at h
  split_ifs at h
  · exact Or.inl h
  · simpa using h

theorem scan_min (pfx : String) (vs : List Var) : ∀ st : ArrayScan,
    (vs.foldl (scanStep pfx) st).minI ≤ st.minI ∧
    (∀ k ∈ vs.map (parsedIndex pfx), (vs.foldl (scanStep pfx) st).minI ≤ k) ∧
    ((vs.foldl (scanStep pfx) st).minI = st.minI ∨
      (vs.foldl (scanStep pfx) st).minI ∈ vs.map (parsedIndex pfx)) := by
  induction vs with
  | nil => intro st; simp
  | cons v vs ih =>
    intro st
    obtain ⟨h1, h2, h3⟩ := ih (scanStep pfx st v)
    have hstep : (scanStep pfx st v).minI ≤ st.minI ∧
        (scanStep pfx st v).minI ≤ parsedIndex pfx v ∧
        ((scanStep pfx st v).minI = st.minI ∨ (scanStep pfx st v).minI = parsedIndex pfx v) := by
      simp only [scanStep]
      split_ifs <;> omega
    rw [List.foldl_cons]
    refine ⟨le_trans h1 hstep.1, ?_, ?_⟩
    · intro k hk
      rw [List.map_cons, List.mem_cons] at hk
      rcases hk with rfl | hk
      · exact le_trans h1 hstep.2.1
      · exact h2 k hk
    · rw [List.map_cons]
      rcases h3 with h3 | h3
      · rcases hstep.2.2 with h4 | h4
        · exact Or.inl (h3.trans h4)
        · exact Or.inr (by rw [h3, h4]; exact List.mem_cons_self _ _)
      · exact Or.inr (List.mem_cons_of_mem _ h3)

theorem scan_max (pfx : String) (vs : List Var) : ∀ st : ArrayScan,
    st.maxI ≤ (vs.foldl (scanStep pfx) st).maxI ∧
    (∀ k ∈ vs.map (parsedIndex pfx), k ≤ (vs.foldl (scanStep pfx) st).maxI) ∧
    ((vs.foldl (scanStep pfx) st).maxI = st.maxI ∨
      (vs.foldl (scanStep pfx) st).maxI ∈ vs.map (parsedIndex pfx)) := by
  induction vs with
  | nil => intro st; simp
  | cons v vs ih =>
    intro st
    obtain ⟨h1, h2, h3⟩ := ih (scanStep pfx st v)
    have hstep : st.maxI ≤ (scanStep pfx st v).maxI ∧
        parsedIndex pfx v ≤ (scanStep pfx st v).maxI ∧
        ((scanStep pfx st v).maxI = st.maxI ∨ (scanStep pfx st v).maxI = parsedIndex pfx v) := by
      simp only [scanStep]
      split_ifs <;> omega
    rw [List.foldl_cons]
    refine ⟨le_trans hstep.1 h1, ?_, ?_⟩
    · intro k hk
      rw [List.map_cons, List.mem_cons] at hk
      rcases hk with rfl | hk
      · exact le_trans hstep.2.1 h1
      · exact h2 k hk
    · rw [List.map_cons]
      rcases h3 with h3 | h3
      · rcases hstep.2.2 with h4 | h4
        · exact Or.inl (h3.trans h4)
        · exact Or.inr (by rw [h3, h4]; exact List.mem_cons_self _ _)
      · exact Or.inr (List.mem_cons_of_mem _ h3)

theorem scan_keys (pfx : String) (vs : List Var) : ∀ st : ArrayScan,
    ((st.indexMap.map Prod.fst).Nodup →
      (((vs.foldl (scanStep pfx) st).indexMap).map Prod.fst).Nodup) ∧
    (∀ k, k ∈ ((vs.foldl (scanStep pfx) st).indexMap).map Prod.fst ↔
      k ∈ st.indexMap.map Prod.fst ∨ k ∈ vs.map (parsedIndex pfx)) ∧
    (∀ e ∈ (vs.foldl (scanStep pfx) st).indexMap,
      e ∈ st.indexMap ∨ (e.2 ∈ vs ∧ e.1 = parsedIndex pfx e.2)) := by
  induction vs with
  | nil => intro st; simp
  | cons v vs ih =>
    intro st
    obtain ⟨h1, h2, h3⟩ := ih (scanStep pfx st v)
    rw [List.foldl_cons]
    refine ⟨fun hn => h1 (emplace_nodup _ _ _ hn), ?_, ?_⟩
    · intro k
      rw [h2 k, List.map_cons, List.mem_cons]
      have := mem_emplace_keys st.indexMap (parsedIndex pfx v) k v
      simp only [scanStep]
      rw [this]
      tauto
    · intro e he
      rcases h3 e he with h | ⟨h, h'⟩
      · rcases mem_emplace _ _ _ _ h with h | h
        · exact Or.inl h
        · right
          rw [h]
          exact ⟨List.mem_cons_self _ _, rfl⟩
      · exact Or.inr ⟨List.mem_cons_of_mem _ h, h'⟩

theorem nameMatches_iff (pfx name : String) :
    nameMatches pfx name = true ↔ pfx.length < name.length ∧ pfx.data <+: name.data := by
  unfold nameMatches substr
  rw [Bool.and_eq_true, decide_eq_true_eq, decide_eq_true_eq, List.prefix_iff_eq_take]
  have hl : pfx.length = pfx.data.length := rfl
  constructor
  · rintro ⟨h1, h2⟩
    refine ⟨h1, ?_⟩
    have := congrArg String.data h2
    simp only [List.drop_zero] at this
    rw [← hl]
    exact this.symm
  · rintro ⟨h1, h2⟩
    refine ⟨h1, ?_⟩
    rw [List.drop_zero, hl, ← h2]

theorem arrayFill_length (im : List (Int × Var)) : ∀ arr : List (Option Var),
    (arrayFill im arr).length = arr.length := by
  induction im with
  | nil => intro arr; rfl
  | cons e es ih =>
    intro arr
    simp only [arrayFill, List.foldl_cons] at ih ⊢
    rw [ih, List.length_set]

theorem arrayFill_get_other (im : List (Int × Var)) (j : Nat) : ∀ arr : List (Option Var),
    (∀ e ∈ im, toSizeT e.1 ≠ j) → (arrayFill im arr).get? j = arr.get? j := by
  induction im with
  | nil => intro arr _; rfl
  | cons e es ih =>
    intro arr h
    simp only [arrayFill, List.foldl_cons] at ih ⊢
    rw [ih _ (fun e' he' => h e' (List.mem_cons_of_mem _ he'))]
    rw [List.get?_eq_getElem?, List.get?_eq_getElem?,
      List.getElem?_set_ne (h e (List.mem_cons_self _ _))]

theorem arrayFill_get_mem (im : List (Int × Var)) : ∀ (arr : List (Option Var)) (e : Int × Var),
    (im.map fun x => toSizeT x.1).Nodup → e ∈ im → toSizeT e.1 < arr.length →
    (arrayFill im arr).get? (toSizeT e.1) = some (some e.2) := by
  induction im with
  | nil => intro arr e _ he; simp at he
  | cons x xs ih =>
    intro arr e hnd he hlt
    rw [List.map_cons, List.nodup_cons] at hnd
    rcases List.mem_cons.1 he with rfl | he'
    · have : ∀ e' ∈ xs, toSizeT e'.1 ≠ toSizeT e.1 := by
        intro e' he' heq
        exact hnd.1 (List.mem_map.2 ⟨e', he', heq⟩)
      have h := arrayFill_get_other xs (toSizeT e.1) (arr.set (toSizeT e.1) (some e.2)) this
      simp only [arrayFill, List.foldl_cons] at h ⊢
      rw [h, List.get?_eq_getElem?, List.getElem?_set_self hlt]
    · have h := ih (arr.set (toSizeT x.1) (some x.2)) e hnd.2 he' (by rw [List.length_set]; exact hlt)
      simp only [arrayFill, List.foldl_cons] at h ⊢
      exact h

theorem nodup_range_length (l : List Int) (m : Int) (hm : 0 ≤ m) (hnd : l.Nodup)
    (hr : ∀ k ∈ l, 0 ≤ k ∧ k ≤ m) : (l.length : Int) ≤ m + 1 := by
  have hsub : l.toFinset ⊆ Finset.Icc 0 m := by
    intro k hk
    rw [List.mem_toFinset] at hk
    exact Finset.mem_Icc.2 (hr k hk)
  have hc := Finset.card_le_card hsub
  rw [List.toFinset_card_of_nodup hnd, Int.card_Icc] at hc
  omega

theorem nodup_range_full (l : List Int) (m : Int) (hm : 0 ≤ m) (hnd : l.Nodup)
    (hr : ∀ k ∈ l, 0 ≤ k ∧ k ≤ m) (hlen : (l.length : Int) = m + 1) :
    ∀ j, 0 ≤ j → j ≤ m → j ∈ l := by
  have hsub : l.toFinset ⊆ Finset.Icc 0 m := by
    intro k hk
    rw [List.mem_toFinset] at hk
    exact Finset.mem_Icc.2 (hr k hk)
  have hc : (Finset.Icc 0 m).card ≤ l.toFinset.card := by
    rw [List.toFinset_card_of_nodup hnd, Int.card_Icc]
    omega
  have heq := Finset.eq_of_subset_of_card_le hsub hc
  intro j h0 h1
  have : j ∈ l.toFinset := by
    rw [heq]
    exact Finset.mem_Icc.2 ⟨h0, h1⟩
  exact List.mem_toFinset.1 this

theorem toSizeT_of_nonneg (k : Int) (h0 : 0 ≤ k) (h1 : k ≤ INT_MAX) : toSizeT k = k.toNat := by
  unfold toSizeT
  unfold INT_MAX at h1
  rw [Int.emod_eq_of_lt h0 (by omega)]

theorem sizePred_of_pos (n : Nat) (h0 : 1 ≤ n) (h1 : n ≤ 2147483648) : sizePred n = n - 1 := by
  unfold sizePred
  omega

theorem parsedIndices_range (g : Group) (pfx : String) :
    ∀ k ∈ parsedIndices g pfx, INT_MIN ≤ k ∧ k ≤ INT_MAX := by
  intro k hk
  obtain ⟨v, _, rfl⟩ := List.mem_map.1 hk
  exact atoi_range _

theorem arrayScan_eq (g : Group) (pfx : String) :
    arrayScan pfx g.m_vars =
      (matchingVars pfx g.m_vars).foldl (scanStep pfx) ⟨[], INT_MAX, INT_MIN⟩ :=
  foldl_arrayStep pfx g.m_vars _

theorem scan_facts (g : Group) (pfx : String) :
    ((arrayScan pfx g.m_vars).indexMap.map Prod.fst).Nodup ∧
    (∀ k, k ∈ (arrayScan pfx g.m_vars).indexMap.map Prod.fst ↔ k ∈ parsedIndices g pfx) ∧
    (∀ e ∈ (arrayScan pfx g.m_vars).indexMap,
      e.2 ∈ matchingVars pfx g.m_vars ∧ e.1 = parsedIndex pfx e.2) ∧
    (∀ k ∈ parsedIndices g pfx,
      (arrayScan pfx g.m_vars).minI ≤ k ∧ k ≤ (arrayScan pfx g.m_vars).maxI) ∧
    (parsedIndices g pfx = [] →
      (arrayScan pfx g.m_vars).minI = INT_MAX ∧ (arrayScan pfx g.m_vars).maxI = INT_MIN) ∧
    (parsedIndices g pfx ≠ [] →
      (arrayScan pfx g.m_vars).minI ∈ parsedIndices g pfx ∧
      (arrayScan pfx g.m_vars).maxI ∈ parsedIndices g pfx) ∧
    (arrayScan pfx g.m_vars).indexMap.length = (parsedIndices g pfx).dedup.length := by
  rw [arrayScan_eq]
  obtain ⟨k1, k2, k3⟩ := scan_keys pfx (matchingVars pfx g.m_vars) ⟨[], INT_MAX, INT_MIN⟩
  obtain ⟨m1, m2, m3⟩ := scan_min pfx (matchingVars pfx g.m_vars) ⟨[], INT_MAX, INT_MIN⟩
  obtain ⟨x1, x2, x3⟩ := scan_max pfx (matchingVars pfx g.m_vars) ⟨[], INT_MAX, INT_MIN⟩
  have hr := parsedIndices_range g pfx
  have hnd := k1 (by simp)
  have hmem : ∀ k, k ∈ ((matchingVars pfx g.m_vars).foldl (scanStep pfx)
      ⟨[], INT_MAX, INT_MIN⟩).indexMap.map Prod.fst ↔ k ∈ parsedIndices g pfx := by
    intro k
    rw [k2 k]
    simp [parsedIndices]
  refine ⟨hnd, hmem, ?_, ?_, ?_, ?_, ?_⟩
  · intro e he
    rcases k3 e he with h | h
    · simp at h
    · exact h
  · intro k hk
    exact ⟨m2 k hk, x2 k hk⟩
  · intro hnil
    unfold parsedIndices at hnil
    rw [List.map_eq_nil_iff] at hnil
    rw [hnil]
    exact ⟨rfl, rfl⟩
  · intro hne
    obtain ⟨k, hk⟩ := List.exists_mem_of_ne_nil _ hne
    constructor
    · rcases m3 with h | h
      · have h1 := m2 k hk
        have h2 := (hr k hk).2
        simp only at h
        have : k = ((matchingVars pfx g.m_vars).foldl (scanStep pfx)
            ⟨[], INT_MAX, INT_MIN⟩).minI := by omega
        rw [← this]
        exact hk
      · exact h
    · rcases x3 with h | h
      · have h1 := x2 k hk
        have h2 := (hr k hk).1
        simp only at h
        have : k = ((matchingVars pfx g.m_vars).foldl (scanStep pfx)
            ⟨[], INT_MAX, INT_MIN⟩).maxI := by omega
        rw [← this]
        exact hk
      · exact h
  · have hp : (((matchingVars pfx g.m_vars).foldl (scanStep pfx)
        ⟨[], INT_MAX, INT_MIN⟩).indexMap.map Prod.fst).Perm (parsedIndices g pfx).dedup := by
      rw [List.perm_ext_iff_of_nodup hnd (List.nodup_dedup _)]
      intro k
      rw [hmem k, List.mem_dedup]
    have := hp.length_eq
    rw [List.length_map] at this
    exact this

theorem array_check_iff (g : Group) (pfx : String) :
    ((arrayScan pfx g.m_vars).minI ≠ 0 ∨
      toSizeT (arrayScan pfx g.m_vars).maxI ≠ sizePred (arrayScan pfx g.m_vars).indexMap.length) ↔
    ¬ DenseIndices (parsedIndices g pfx) := by
  obtain ⟨hnd, hmem, -, hbd, hnil, hne, hlen⟩ := scan_facts g pfx
  have hr := parsedIndices_range g pfx
  rw [← not_iff_not, not_not, not_or, not_not, not_not]
  constructor
  · rintro ⟨hmin, hmax⟩
    have hI : parsedIndices g pfx ≠ [] := by
      intro h
      have := (hnil h).1
      rw [hmin] at this
      exact absurd this (by decide)
    obtain ⟨h1, h2⟩ := hne hI
    rw [hmin] at h1
    have hge : ∀ k ∈ parsedIndices g pfx, 0 ≤ k := by
      intro k hk
      have := (hbd k hk).1
      omega
    have hM0 := hge _ h2
    have hM1 := (hr _ h2).2
    have hkeys : ∀ k ∈ (arrayScan pfx g.m_vars).indexMap.map Prod.fst,
        0 ≤ k ∧ k ≤ (arrayScan pfx g.m_vars).maxI := by
      intro k hk
      rw [hmem] at hk
      exact ⟨hge k hk, (hbd k hk).2⟩
    have hle := nodup_range_length _ _ hM0 hnd hkeys
    rw [List.length_map] at hle
    have hpos : 1 ≤ (arrayScan pfx g.m_vars).indexMap.length := by
      have : 0 ∈ (arrayScan pfx g.m_vars).indexMap.map Prod.fst := (hmem 0).2 h1
      have := List.length_pos_of_mem this
      rw [List.length_map] at this
      exact this
    rw [toSizeT_of_nonneg _ hM0 hM1, sizePred_of_pos _ hpos
      (by unfold INT_MAX at hM1; omega)] at hmax
    refine ⟨h1, hge, _, h2, fun k hk => (hbd k hk).2, ?_⟩
    rw [← hlen]
    omega
  · rintro ⟨h0, hge, m, hm, hmx, hcard⟩
    have hI : parsedIndices g pfx ≠ [] := List.ne_nil_of_mem h0
    obtain ⟨h1, h2⟩ := hne hI
    have hmin : (arrayScan pfx g.m_vars).minI = 0 := by
      have := (hbd 0 h0).1
      have := hge _ h1
      omega
    have hmaxeq : (arrayScan pfx g.m_vars).maxI = m := by
      have := (hbd m hm).2
      have := hmx _ h2
      omega
    refine ⟨hmin, ?_⟩
    have hM0 := hge _ hm
    have hM1 := (hr _ hm).2
    rw [hmaxeq, toSizeT_of_nonneg _ hM0 hM1, hlen, sizePred_of_pos _ (by omega)
      (by unfold INT_MAX at hM1; omega)]
    omega

theorem array_eq_none_iff (g : Group) (pfx : String) :
    g.array pfx = none ↔ ¬ DenseIndices (parsedIndices g pfx) := by
  rw [← array_check_iff]
  unfold Group.array
  simp only
  split_ifs with h
  · simp [h]
  · simp [h]

theorem mapFind_of_mem {K V : Type} [DecidableEq K] (m : List (K × V))
    (hnd : (m.map Prod.fst).Nodup) (e : K × V) (he : e ∈ m) : mapFind m e.1 = some e.2 := by
  induction m with
  | nil => simp at he
  | cons x xs ih =>
    rw [List.map_cons, List.nodup_cons] at hnd
    unfold mapFind
    rcases List.mem_cons.1 he with rfl | he'
    · simp
    · have : x.1 ≠ e.1 := by
        intro heq
        exact hnd.1 (heq ▸ List.mem_map_of_mem Prod.fst he')
      rw [if_neg this]
      exact ih hnd.2 he'

theorem mem_matchingVars (pfx : String) (vars : List (String × Var)) (v : Var) :
    v ∈ matchingVars pfx vars ↔ (∃ e ∈ vars, e.2 = v) ∧ nameMatches pfx v.name = true := by
  unfold matchingVars
  rw [List.mem_filter, List.mem_map]

theorem substrFrom_append (pfx s : String) : substrFrom (pfx ++ s) pfx.length = s := by
  unfold substrFrom
  have : (pfx ++ s).data = pfx.data ++ s.data := String.data_append pfx s
  rw [this]
  show String.mk (List.drop pfx.data.length (pfx.data ++ s.data)) = s
  rw [List.drop_left]


theorem foldl_emplace_wf (vars : List Var) : ∀ m : List (String × Var),
    (m.map Prod.fst).Nodup → (∀ e ∈ m, e.2.name = e.1) →
    ((vars.foldl (fun m v => emplace m v.name v) m).map Prod.fst).Nodup ∧
    ∀ e ∈ vars.foldl (fun m v => emplace m v.name v) m, e.2.name = e.1 := by
  induction vars with
  | nil => intro m h1 h2; exact ⟨h1, h2⟩
  | cons v vs ih =>
    intro m h1 h2
    rw [List.foldl_cons]
    refine ih _ (emplace_nodup _ _ _ h1) ?_
    intro e he
    rcases mem_emplace _ _ _ _ he with h | h
    · exact h2 e h
    · rw [h]

theorem Group.ctor_wf (name : String) (vars : List Var) : (Group.ctor name vars).WF :=
  foldl_emplace_wf vars [] List.nodup_nil (fun _ h => absurd h (List.not_mem_nil _))

theorem roundNat24_small (a : Nat) (h : a ≤ 16777216) : roundNat24 a = a := by
  rcases Nat.lt_or_eq_of_le h with h | rfl
  · unfold roundNat24
    have : excessBits a a = 0 := by
      cases a with
      | zero => rfl
      | succ b => simp [excessBits, h]
    simp [this]
  · decide

theorem intToFloat_small (n : Int) (h : n.natAbs ≤ 16777216) : intToFloat n = (n : ℚ) := by
  unfold intToFloat
  rw [roundNat24_small _ h]
  have h2 : ((n.natAbs : Nat) : ℚ) = (((n.natAbs : Nat) : Int) : ℚ) := (Int.cast_natCast _).symm
  split_ifs with hn
  · have : ((n.natAbs : Nat) : Int) = -n := by omega
    rw [h2, this, Int.cast_neg, neg_neg]
  · have : ((n.natAbs : Nat) : Int) = n := by omega
    rw [h2, this]

theorem thrusters_names_numbered (name : String) :
    (name ∈ (Group_thrusters 10).m_vars.map Prod.fst ∧ "t".length < name.length ∧
      "t".data <+: name.data) ↔ ∃ i, i < 8 ∧ name = "t" ++ Nat.repr i := by
  constructor
  · rintro ⟨hk, -⟩
    have hkeys : (Group_thrusters 10).m_vars.map Prod.fst =
        ["t0", "t1", "t2", "t3", "t4", "t5", "t6", "t7"] := by decide
    rw [hkeys] at hk
    simp only [List.mem_cons, List.mem_singleton, List.not_mem_nil, or_false] at hk
    rcases hk with rfl | rfl | rfl | rfl | rfl | rfl | rfl | rfl
    · exact ⟨0, by decide, by decide⟩
    · exact ⟨1, by decide, by decide⟩
    · exact ⟨2, by decide, by decide⟩
    · exact ⟨3, by decide, by decide⟩
    · exact ⟨4, by decide, by decide⟩
    · exact ⟨5, by decide, by decide⟩
    · exact ⟨6, by decide, by decide⟩
    · exact ⟨7, by decide, by decide⟩
  · rintro ⟨i, hi, rfl⟩
    interval_cases i <;> decide

/-! ## The registry built by `Shm::Shm` -/

/-- Claim C1: for every variable `v` declared by the group constructors, `Shm::var(v.path())`
does not fail and returns `v` (same name, group, type, storage pointer and tag). -/
theorem C1_path_roundtrip :
    ∀ v ∈ Shm.declared, ∃ p, v.path Shm.ctor = some p ∧ Shm.ctor.var p = some v := by
  decide

/-- Instance of claim C1 at `thrusters.t3`. -/
theorem C1_path_roundtrip_witness :
    Var.mkFloat "t3" 10 ⟨10, "t3"⟩ 35 ∈ Shm.declared ∧
    ∃ p, (Var.mkFloat "t3" 10 ⟨10, "t3"⟩ 35).path Shm.ctor = some p ∧
      Shm.ctor.var p = some (Var.mkFloat "t3" 10 ⟨10, "t3"⟩ 35) :=
  ⟨by decide, C1_path_roundtrip _ (by decide)⟩

/-- Claim C2: for every variable `v` declared by the group constructors, `Shm::var(v.tag())`
does not fail and returns `v` itself: no other variable has taken its slot of the tag table. -/
theorem C2_tag_roundtrip : ∀ v ∈ Shm.declared, Shm.ctor.varTag v.tag = some v := by
  decide

/-- Instance of claim C2 at `thrusters.t3`. -/
theorem C2_tag_roundtrip_witness :
    Var.mkFloat "t3" 10 ⟨10, "t3"⟩ 35 ∈ Shm.declared ∧
    Shm.ctor.varTag (Var.mkFloat "t3" 10 ⟨10, "t3"⟩ 35).tag =
      some (Var.mkFloat "t3" 10 ⟨10, "t3"⟩ 35) :=
  ⟨by decide, C2_tag_roundtrip _ (by decide)⟩

/-- Claim C3: on the constructed registry `var(35).get<float>()` returns 0.0, and after
`var(35).set<float>(0.75)` the call `var("thrusters.t3").get<float>()` returns 0.75; tag 35
and path `thrusters.t3` resolve to the same variable, hence to the same storage cell. -/
theorem C3_end_to_end :
    Shm.ctor.getFloatAtTag 35 = some 0 ∧
    ((Shm.ctor.setFloatAtTag 35 (3 / 4)).bind fun s => s.getFloatAtPath "thrusters.t3")
      = some (3 / 4) ∧
    (∃ v, Shm.ctor.varTag 35 = some v ∧ Shm.ctor.var "thrusters.t3" = some v) := by
  have h1 : Shm.ctor.varTag 35 = some (Var.mkFloat "t3" 10 ⟨10, "t3"⟩ 35) := by decide
  have h2 : Shm.ctor.var "thrusters.t3" = some (Var.mkFloat "t3" 10 ⟨10, "t3"⟩ 35) := by
    decide
  have h3 : ∀ m, (⟨Shm.ctor.objs, Shm.ctor.m_groups, Shm.ctor.m_tagMap, m⟩ : Shm).var
      "thrusters.t3" = some (Var.mkFloat "t3" 10 ⟨10, "t3"⟩ 35) := fun _ => h2
  have h4 : (Var.mkFloat "t3" 10 ⟨10, "t3"⟩ 35).setFloat Shm.ctor.mem (3 / 4) =
      some (Shm.ctor.mem.writeFloat ⟨10, "t3"⟩ (3 / 4)) := rfl
  have h5 : ∀ m : Mem, (Var.mkFloat "t3" 10 ⟨10, "t3"⟩ 35).getFloat
      (m.writeFloat ⟨10, "t3"⟩ (3 / 4)) = some (3 / 4) := by
    intro m
    simp [Var.getFloat, Var.verifyType, Var.mkFloat, Mem.writeFloat]
  refine ⟨?_, ?_, ⟨_, h1, h2⟩⟩
  · unfold Shm.getFloatAtTag
    rw [h1]
    rfl
  · unfold Shm.setFloatAtTag Shm.getFloatAtPath
    rw [h1, Option.some_bind, h4, Option.map_some', Option.some_bind, h3, Option.some_bind]
    exact h5 _

/-- Claim C4: no two variables of the constructed registry have the same tag, neither among
the declarations of the group constructors nor among the variables held by the group maps. -/
theorem C4_tags_unique :
    List.Pairwise (fun v w : Var => v.tag ≠ w.tag) Shm.declared ∧
    List.Pairwise (fun v w : Var => v.tag ≠ w.tag) (Shm.ctor.objs.map Group.vars).flatten := by
  constructor <;> decide

/-- Claim C5: in every group of the constructed registry the declared names are pairwise
distinct, every declared variable is found under its name in the group's map, and the map
holds as many variables as were declared (the insertion drops none). -/
theorem C5_names_unique :
    ∀ dg ∈ List.zip Shm.groupDecls Shm.ctor.objs,
      dg.2 = Group.ctor dg.2.name dg.1 ∧
      List.Pairwise (fun v w : Var => v.name ≠ w.name) dg.1 ∧
      (∀ v ∈ dg.1, dg.2.varIfExists v.name = some v) ∧
      dg.2.vars.length = dg.1.length := by
  decide

/-- Instance of claim C5 at the thrusters group. -/
theorem C5_names_unique_witness :
    (Group_thrusters.decls 10, Group_thrusters 10) ∈ List.zip Shm.groupDecls Shm.ctor.objs ∧
    Group_thrusters 10 = Group.ctor (Group_thrusters 10).name (Group_thrusters.decls 10) ∧
    List.Pairwise (fun v w : Var => v.name ≠ w.name) (Group_thrusters.decls 10) ∧
    (∀ v ∈ Group_thrusters.decls 10, (Group_thrusters 10).varIfExists v.name = some v) ∧
    (Group_thrusters 10).vars.length = (Group_thrusters.decls 10).length :=
  ⟨by decide, C5_names_unique (Group_thrusters.decls 10, Group_thrusters 10) (by decide)⟩

/-! ## `Group::array` -/

/-- Claim C6: if the members of a group whose names start with `pfx` and are longer than `pfx`
are exactly the names `pfx` followed by the decimal numeral of `i` for `i = 0..n-1`, with
`1 ≤ n` (and `n` within the range of `int`), then `Group::array(pfx)` succeeds and returns
a sequence of length `n` whose entry `i` is the variable named `pfx` followed by `i`. -/
theorem C6_array_dense (g : Group) (hg : g.WF) (pfx : String) (n : Nat) (hn : 1 ≤ n)
    (hmax : (n : Int) ≤ INT_MAX)
    (h : ∀ name : String,
      (name ∈ g.m_vars.map Prod.fst ∧ pfx.length < name.length ∧ pfx.data <+: name.data) ↔
        ∃ i, i < n ∧ name = pfx ++ Nat.repr i) :
    ∃ arr, g.array pfx = some arr ∧ arr.length = n ∧
      ∀ i, i < n → ∃ v, arr.get? i = some (some v) ∧ v.name = pfx ++ Nat.repr i ∧
        g.varIfExists (pfx ++ Nat.repr i) = some v := by
  have hA : ∀ v ∈ matchingVars pfx g.m_vars,
      ∃ i, i < n ∧ v.name = pfx ++ Nat.repr i ∧ parsedIndex pfx v = (i : Int) := by
    intro v hv
    rw [mem_matchingVars] at hv
    obtain ⟨⟨e, he, rfl⟩, hm⟩ := hv
    rw [nameMatches_iff] at hm
    have hk : e.2.name ∈ g.m_vars.map Prod.fst := by
      rw [hg.2 e he]
      exact List.mem_map_of_mem Prod.fst he
    obtain ⟨i, hi, hname⟩ := (h e.2.name).1 ⟨hk, hm⟩
    refine ⟨i, hi, hname, ?_⟩
    unfold parsedIndex
    rw [hname, substrFrom_append]
    exact atoi_repr i (by unfold INT_MAX at *; omega)
  have hB : ∀ i, i < n → ∃ v ∈ matchingVars pfx g.m_vars, v.name = pfx ++ Nat.repr i := by
    intro i hi
    obtain ⟨hk, hm⟩ := (h (pfx ++ Nat.repr i)).2 ⟨i, hi, rfl⟩
    obtain ⟨e, he, hname⟩ := List.mem_map.1 hk
    refine ⟨e.2, ?_, ?_⟩
    · rw [mem_matchingVars]
      refine ⟨⟨e, he, rfl⟩, ?_⟩
      rw [nameMatches_iff, hg.2 e he, hname]
      exact hm
    · rw [hg.2 e he, hname]
  have hI : ∀ k : Int, k ∈ parsedIndices g pfx ↔ ∃ i : Nat, i < n ∧ k = (i : Int) := by
    intro k
    unfold parsedIndices
    rw [List.mem_map]
    constructor
    · rintro ⟨v, hv, rfl⟩
      obtain ⟨i, hi, -, hp⟩ := hA v hv
      exact ⟨i, hi, hp⟩
    · rintro ⟨i, hi, rfl⟩
      obtain ⟨v, hv, hname⟩ := hB i hi
      obtain ⟨j, hj, hname', hp⟩ := hA v hv
      refine ⟨v, hv, ?_⟩
      have e1 : parsedIndex pfx v = (i : Int) := by
        unfold parsedIndex
        rw [hname, substrFrom_append]
        exact atoi_repr i (by unfold INT_MAX at *; omega)
      exact e1
  obtain ⟨hnd, hmem, hent, hbd, -, hne, hlen⟩ := scan_facts g pfx
  have h0 : (0 : Int) ∈ parsedIndices g pfx := (hI 0).2 ⟨0, by omega, rfl⟩
  have hlast : ((n - 1 : Nat) : Int) ∈ parsedIndices g pfx := (hI _).2 ⟨n - 1, by omega, rfl⟩
  obtain ⟨hminI, hmaxI⟩ := hne (List.ne_nil_of_mem h0)
  have hmin : (arrayScan pfx g.m_vars).minI = 0 := by
    have := (hbd 0 h0).1
    obtain ⟨i, -, hi⟩ := (hI _).1 hminI
    omega
  have hmaxeq : (arrayScan pfx g.m_vars).maxI = ((n - 1 : Nat) : Int) := by
    have := (hbd _ hlast).2
    obtain ⟨i, hi', hi⟩ := (hI _).1 hmaxI
    omega
  have hcard : (arrayScan pfx g.m_vars).indexMap.length = n := by
    have hp : ((arrayScan pfx g.m_vars).indexMap.map Prod.fst).Perm
        ((List.range n).map fun i : Nat => (i : Int)) := by
      rw [List.perm_ext_iff_of_nodup hnd
        ((List.nodup_range n).map (fun a b hab => by simpa using hab))]
      intro k
      rw [hmem k, hI k, List.mem_map]
      constructor
      · rintro ⟨i, hi, rfl⟩
        exact ⟨i, List.mem_range.2 hi, rfl⟩
      · rintro ⟨i, hi, rfl⟩
        exact ⟨i, List.mem_range.1 hi, rfl⟩
    have := hp.length_eq
    simpa using this
  have hsz : toSizeT ((arrayScan pfx g.m_vars).maxI + 1) = n := by
    rw [hmaxeq]
    have : ((n - 1 : Nat) : Int) + 1 = (n : Int) := by omega
    rw [this, toSizeT_of_nonneg _ (by omega) hmax]
    simp
  have hkeyT : ∀ e ∈ (arrayScan pfx g.m_vars).indexMap,
      ∃ i, i < n ∧ e.1 = (i : Int) ∧ toSizeT e.1 = i := by
    intro e he
    have : e.1 ∈ (arrayScan pfx g.m_vars).indexMap.map Prod.fst := List.mem_map_of_mem Prod.fst he
    obtain ⟨i, hi, hk⟩ := (hI _).1 ((hmem _).1 this)
    refine ⟨i, hi, hk, ?_⟩
    rw [hk, toSizeT_of_nonneg _ (by omega) (by unfold INT_MAX at *; omega)]
    simp
  have hndT : ((arrayScan pfx g.m_vars).indexMap.map fun x => toSizeT x.1).Nodup := by
    have : ((arrayScan pfx g.m_vars).indexMap.map fun x => toSizeT x.1) =
        ((arrayScan pfx g.m_vars).indexMap.map Prod.fst).map toSizeT := by
      rw [List.map_map]; rfl
    rw [this]
    refine List.Nodup.map_on ?_ hnd
    intro a ha b hb hab
    obtain ⟨ea, hea, rfl⟩ := List.mem_map.1 ha
    obtain ⟨eb, heb, rfl⟩ := List.mem_map.1 hb
    obtain ⟨i, -, hi1, hi2⟩ := hkeyT ea hea
    obtain ⟨j, -, hj1, hj2⟩ := hkeyT eb heb
    rw [hi1, hj1]
    rw [hi2, hj2] at hab
    rw [hab]
  refine ⟨arrayFill (arrayScan pfx g.m_vars).indexMap
      (List.replicate (toSizeT ((arrayScan pfx g.m_vars).maxI + 1)) none), ?_, ?_, ?_⟩
  · unfold Group.array
    simp only
    rw [if_neg]
    rw [not_or, not_not, not_not]
    refine ⟨hmin, ?_⟩
    rw [hmaxeq, hcard, toSizeT_of_nonneg _ (by omega) (by unfold INT_MAX at *; omega),
      sizePred_of_pos _ hn (by unfold INT_MAX at *; omega)]
    simp
  · rw [arrayFill_length, List.length_replicate, hsz]
  · intro i hi
    have hik : (i : Int) ∈ (arrayScan pfx g.m_vars).indexMap.map Prod.fst :=
      (hmem _).2 ((hI _).2 ⟨i, hi, rfl⟩)
    obtain ⟨e, he, hei⟩ := List.mem_map.1 hik
    obtain ⟨hev, hep⟩ := hent e he
    obtain ⟨j, hj, hname, hp⟩ := hA e.2 hev
    have hji : j = i := by
      have : (j : Int) = (i : Int) := by rw [← hp, ← hep, hei]
      exact_mod_cast this
    subst hji
    obtain ⟨i', -, hi1, hi2⟩ := hkeyT e he
    have hii : i' = j := by
      have : (i' : Int) = (j : Int) := by rw [← hi1, hei]
      exact_mod_cast this
    subst hii
    refine ⟨e.2, ?_, hname, ?_⟩
    · have := arrayFill_get_mem (arrayScan pfx g.m_vars).indexMap
        (List.replicate (toSizeT ((arrayScan pfx g.m_vars).maxI + 1)) none) e hndT he
        (by rw [List.length_replicate, hsz, hi2]; exact hi)
      rw [hi2] at this
      exact this
    · rw [mem_matchingVars] at hev
      obtain ⟨⟨e', he', hee⟩, -⟩ := hev
      have := mapFind_of_mem g.m_vars hg.1 e' he'
      unfold Group.varIfExists
      rw [← hname, ← hee, hg.2 e' he']
      exact this

/-- Instance of claim C6: `array("t")` on the thrusters group `t0..t7` returns 8 entries,
entry `i` being the variable `t<i>`. -/
theorem C6_array_dense_witness :
    ∃ arr, (Group_thrusters 10).array "t" = some arr ∧ arr.length = 8 ∧
      ∀ i, i < 8 → ∃ v, arr.get? i = some (some v) ∧ v.name = "t" ++ Nat.repr i ∧
        (Group_thrusters 10).varIfExists ("t" ++ Nat.repr i) = some v :=
  C6_array_dense (Group_thrusters 10) (Group.ctor_wf _ _) "t" 8 (by decide) (by decide)
    thrusters_names_numbered

/-- Claim C7: if the indices parsed from the matching names do not start at 0 (0 is not
among them, or one of them is negative) or leave a gap (some `k` between 0 and a parsed
index is not itself a parsed index), then `Group::array(pfx)` fails fatally. -/
theorem C7_array_gap_fatal (g : Group) (pfx : String)
    (h : (0 ∉ parsedIndices g pfx ∨ ∃ k ∈ parsedIndices g pfx, k < 0) ∨
      ∃ k j, 0 ≤ k ∧ k ≤ j ∧ j ∈ parsedIndices g pfx ∧ k ∉ parsedIndices g pfx) :
    g.array pfx = none := by
  rw [array_eq_none_iff]
  rintro ⟨h0, hge, m, hm, hmx, hcard⟩
  rcases h with (h | ⟨k, hk, hneg⟩) | ⟨k, j, hk0, hkj, hj, hk⟩
  · exact h h0
  · have := hge k hk
    omega
  · have hfull := nodup_range_full (parsedIndices g pfx).dedup m (hge m hm)
      (List.nodup_dedup _)
      (fun i hi => ⟨hge i (List.mem_dedup.1 hi), hmx i (List.mem_dedup.1 hi)⟩)
      hcard.symm k hk0 (le_trans hkj (hmx j hj))
    exact hk (List.mem_dedup.1 hfull)

/-- Instance of claim C7: a group with `t0, t1, t2, t4, t5, t6, t7` and the leading string `t`. -/
theorem C7_array_gap_fatal_witness :
    ((3 : Int) ∉ parsedIndices gapGroup "t" ∧ (4 : Int) ∈ parsedIndices gapGroup "t") ∧
    gapGroup.array "t" = none :=
  ⟨by decide, C7_array_gap_fatal gapGroup "t"
    (Or.inr ⟨3, 4, by decide, by decide, by decide, by decide⟩)⟩

/-- Counterexample to claim C8 as stated: `t0` and `t00` are two different matching names with
the same parsed index 0, yet `Group::array("t")` does not fail; it returns a one-entry
sequence holding the member visited first, whichever the iteration order of the map. -/
theorem C8_counterexample :
    (Var.mkFloat "t0" 0 ⟨0, "t0"⟩ 32 ∈ matchingVars "t" dupGroup.m_vars ∧
     Var.mkFloat "t00" 0 ⟨0, "t00"⟩ 33 ∈ matchingVars "t" dupGroup.m_vars ∧
     (Var.mkFloat "t0" 0 ⟨0, "t0"⟩ 32).name ≠ (Var.mkFloat "t00" 0 ⟨0, "t00"⟩ 33).name ∧
     parsedIndex "t" (Var.mkFloat "t0" 0 ⟨0, "t0"⟩ 32) =
       parsedIndex "t" (Var.mkFloat "t00" 0 ⟨0, "t00"⟩ 33)) ∧
    dupGroup.array "t" = some [some (Var.mkFloat "t0" 0 ⟨0, "t0"⟩ 32)] ∧
    (⟨"thrusters", dupGroup.m_vars.reverse⟩ : Group).array "t" =
      some [some (Var.mkFloat "t00" 0 ⟨0, "t00"⟩ 33)] := by
  decide

/-- Claim C8, amended: `Group::array(pfx)` fails fatally exactly when the parsed indices are
not dense, that is when 0 is not a parsed index, or a parsed index is negative, or the
largest parsed index differs from the number of distinct parsed indices minus one. Names
sharing an index count once, so a duplicate alone is not a cause of failure. -/
theorem C8_array_fatal_iff (g : Group) (pfx : String) :
    g.array pfx = none ↔ ¬ DenseIndices (parsedIndices g pfx) :=
  array_eq_none_iff g pfx

/-! ## Typed access -/

/-- Claim C9: for a variable of declared type INT, BOOL or STRING and every value `x` of that
type, `set<T>(x)` succeeds and a following `get<T>()` returns exactly `x`. -/
theorem C9_set_get_identity (v : Var) (m : Mem) :
    (v.type = VType.INT → ∀ x : Int,
      ∃ m', v.setInt m x = some m' ∧ v.getInt m' = some x) ∧
    (v.type = VType.BOOL → ∀ x : Bool,
      ∃ m', v.setBool m x = some m' ∧ v.getBool m' = some x) ∧
    (v.type = VType.STRING → ∀ x : String,
      ∃ m', v.setString m x = some m' ∧ v.getString m' = some x) := by
  refine ⟨fun h x => ?_, fun h x => ?_, fun h x => ?_⟩
  · refine ⟨m.writeInt v.m_value x, ?_, ?_⟩
    · simp only [Var.type] at h
      simp [Var.setInt, Var.verifyType, h]
    · simp only [Var.type] at h
      simp [Var.getInt, Var.verifyType, h, Mem.writeInt]
  · refine ⟨m.writeBool v.m_value x, ?_, ?_⟩
    · simp only [Var.type] at h
      simp [Var.setBool, Var.verifyType, h]
    · simp only [Var.type] at h
      simp [Var.getBool, Var.verifyType, h, Mem.writeBool]
  · refine ⟨m.writeString v.m_value x, ?_, ?_⟩
    · simp only [Var.type] at h
      simp [Var.setString, Var.verifyType, h]
    · simp only [Var.type] at h
      simp [Var.getString, Var.verifyType, h, Mem.writeString]

/-- Instance of claim C9 at an INT, a BOOL and a STRING variable. -/
theorem C9_set_get_identity_witness :
    (∃ m', (Var.mkInt "brightness" 3 ⟨3, "brightness"⟩ 8).setInt Shm.initMem 200 = some m' ∧
      (Var.mkInt "brightness" 3 ⟨3, "brightness"⟩ 8).getInt m' = some 200) ∧
    (∃ m', (Var.mkBool "softKill" 8 ⟨8, "softKill"⟩ 30).setBool Shm.initMem false = some m' ∧
      (Var.mkBool "softKill" 8 ⟨8, "softKill"⟩ 30).getBool m' = some false) ∧
    (∃ m', (Var.mkString "label" 0 ⟨0, "label"⟩ 44).setString Shm.initMem "abc" = some m' ∧
      (Var.mkString "label" 0 ⟨0, "label"⟩ 44).getString m' = some "abc") :=
  ⟨(C9_set_get_identity (Var.mkInt "brightness" 3 ⟨3, "brightness"⟩ 8) Shm.initMem).1 rfl 200,
   (C9_set_get_identity (Var.mkBool "softKill" 8 ⟨8, "softKill"⟩ 30) Shm.initMem).2.1 rfl false,
   (C9_set_get_identity (Var.mkString "label" 0 ⟨0, "label"⟩ 44) Shm.initMem).2.2 rfl "abc"⟩

/-- Claim C10: `get<float>()` on an INT variable holding `n` succeeds and returns `n`
converted to float (which is `n` itself up to magnitude `2 ^ 24`); `get<int>()` on a FLOAT
variable is a fatal type mismatch. -/
theorem C10_int_float_coercion (v : Var) (m : Mem) :
    (v.type = VType.INT →
      v.getFloat m = some (intToFloat (m.ints v.m_value)) ∧
      ((m.ints v.m_value).natAbs ≤ 16777216 →
        v.getFloat m = some ((m.ints v.m_value : Int) : ℚ))) ∧
    (v.type = VType.FLOAT → v.getInt m = none) := by
  refine ⟨fun h => ?_, fun h => ?_⟩
  · simp only [Var.type] at h
    have : v.getFloat m = some (intToFloat (m.ints v.m_value)) := by
      simp [Var.getFloat, h]
    refine ⟨this, fun hs => ?_⟩
    rw [this, intToFloat_small _ hs]
  · simp only [Var.type] at h
    simp [Var.getInt, Var.verifyType, h]

/-- Instance of claim C10 at `led.maxHue` (INT) and `thrusters.t3` (FLOAT). -/
theorem C10_int_float_coercion_witness :
    ((Var.mkInt "maxHue" 3 ⟨3, "maxHue"⟩ 9).getFloat Shm.initMem =
        some (intToFloat (Shm.initMem.ints ⟨3, "maxHue"⟩))) ∧
    (Var.mkFloat "t3" 10 ⟨10, "t3"⟩ 35).getInt Shm.initMem = none :=
  ⟨((C10_int_float_coercion (Var.mkInt "maxHue" 3 ⟨3, "maxHue"⟩ 9) Shm.initMem).1 rfl).1,
   (C10_int_float_coercion (Var.mkFloat "t3" 10 ⟨10, "t3"⟩ 35) Shm.initMem).2 rfl⟩

/-! ## Lemmas: `set` calls, path splitting, the constructed registry, successful `array` -/

theorem verifyType_eq (v : Var) (t : VType) :
    v.verifyType t = if t = v.m_type then some () else none := by
  unfold Var.verifyType
  split_ifs <;> simp_all

theorem setResult_int (v : Var) (m : Mem) (x : Int) :
    v.setResult m (SetCall.int x) = v.setInt m x := by
  unfold Var.setResult Var.setExec Var.setInt Var.setFloat Var.verifyThenStore
  simp only [verifyType_eq]
  split_ifs <;> simp_all

theorem setResult_float (v : Var) (m : Mem) (x : ℚ) :
    v.setResult m (SetCall.float x) = v.setFloat m x := by
  unfold Var.setResult Var.setExec Var.setFloat Var.verifyThenStore
  simp only [verifyType_eq]
  split_ifs <;> simp_all

theorem setResult_bool (v : Var) (m : Mem) (x : Bool) :
    v.setResult m (SetCall.bool x) = v.setBool m x := by
  unfold Var.setResult Var.setExec Var.setBool Var.verifyThenStore
  simp only [verifyType_eq]
  split_ifs <;> simp_all

theorem setResult_string (v : Var) (m : Mem) (x : String) :
    v.setResult m (SetCall.string x) = v.setString m x := by
  unfold Var.setResult Var.setExec Var.setString Var.verifyThenStore
  simp only [verifyType_eq]
  split_ifs <;> simp_all

theorem setResult_cstr (v : Var) (m : Mem) (x : List Char) :
    v.setResult m (SetCall.cstr x) = v.setCStr m x := by
  unfold Var.setResult Var.setExec Var.setCStr Var.setString Var.verifyThenStore
  simp only [verifyType_eq]
  split_ifs <;> simp_all

theorem setExec_frame (v : Var) (m : Mem) (c : SetCall) (a : Addr) (ha : a ≠ v.m_value) :
    (v.setExec m c).1.ints a = m.ints a ∧ (v.setExec m c).1.floats a = m.floats a ∧
    (v.setExec m c).1.bools a = m.bools a ∧ (v.setExec m c).1.strings a = m.strings a := by
  cases c <;>
    simp only [Var.setExec, Var.verifyThenStore, verifyType_eq] <;>
    split_ifs <;>
    simp [Mem.writeInt, Mem.writeFloat, Mem.writeBool, Mem.writeString, ha]

theorem findChar_eq_none (c : Char) (l : List Char) : findChar c l = none ↔ c ∉ l := by
  induction l with
  | nil => simp [findChar]
  | cons x xs ih =>
    unfold findChar
    by_cases h : x = c
    · simp [h]
    · rw [if_neg h, Option.map_eq_none', ih, List.mem_cons, not_or]
      exact ⟨fun hx => ⟨fun hc => h hc.symm, hx⟩, fun hx => hx.2⟩

theorem findChar_append (c : Char) (l₁ l₂ : List Char) (h : c ∉ l₁) :
    findChar c (l₁ ++ c :: l₂) = some l₁.length := by
  induction l₁ with
  | nil => simp [findChar]
  | cons x xs ih =>
    rw [List.mem_cons, not_or] at h
    rw [List.cons_append, findChar, if_neg (fun hx => h.1 hx.symm), ih h.2]
    rfl

theorem findChar_some (c : Char) (l : List Char) : ∀ d, findChar c l = some d →
    d < l.length ∧ c ∉ l.take d ∧ l = l.take d ++ c :: l.drop (d + 1) := by
  induction l with
  | nil => intro d h; simp [findChar] at h
  | cons x xs ih =>
    intro d h
    unfold findChar at h
    by_cases hx : x = c
    · rw [if_pos hx] at h
      have : d = 0 := by simpa using h.symm
      subst this
      simp [hx]
    · rw [if_neg hx, Option.map_eq_some'] at h
      obtain ⟨d', hd', rfl⟩ := h
      obtain ⟨h1, h2, h3⟩ := ih d' hd'
      refine ⟨by simpa using h1, ?_, ?_⟩
      · rw [List.take_succ_cons, List.mem_cons, not_or]
        exact ⟨fun hc => hx hc.symm, h2⟩
      · rw [List.take_succ_cons, List.drop_succ_cons, List.cons_append, ← h3]

theorem mapFind_eq_none {K V : Type} [DecidableEq K] (m : List (K × V)) (k : K) :
    mapFind m k = none ↔ ∀ e ∈ m, e.1 ≠ k := by
  induction m with
  | nil => simp [mapFind]
  | cons x xs ih =>
    unfold mapFind
    by_cases h : x.1 = k
    · simp [h]
    · rw [if_neg h, ih]
      simp [h]

theorem mapFind_some_mem {K V : Type} [DecidableEq K] (m : List (K × V)) (k : K) (x : V)
    (h : mapFind m k = some x) : (k, x) ∈ m := by
  induction m with
  | nil => simp [mapFind] at h
  | cons e es ih =>
    unfold mapFind at h
    by_cases he : e.1 = k
    · rw [if_pos he] at h
      have hx : e.2 = x := by simpa using h
      have : e = (k, x) := by rw [← he, ← hx]
      rw [this]
      exact List.mem_cons_self _ _
    · rw [if_neg he] at h
      exact List.mem_cons_of_mem _ (ih h)

theorem varIfExists_no_dot (s : Shm) (path : String) (h : '.' ∉ path.data) :
    s.varIfExists path = none := by
  have : strFind path '.' = none := (findChar_eq_none _ _).2 h
  unfold Shm.varIfExists
  rw [this]

theorem varIfExists_split (s : Shm) (g rest : String) (h : '.' ∉ g.data) :
    s.varIfExists (g ++ "." ++ rest) =
      (s.groupIfExists g).bind fun p => (s.deref p).bind fun grp => grp.varIfExists rest := by
  have hd : (g ++ "." ++ rest).data = g.data ++ '.' :: rest.data := by
    simp [String.data_append]
  have hf : strFind (g ++ "." ++ rest) '.' = some g.data.length := by
    unfold strFind
    rw [hd]
    exact findChar_append _ _ _ h
  have h1 : substr (g ++ "." ++ rest) 0 g.data.length = g := by
    unfold substr
    rw [hd, List.drop_zero, List.take_left]
  have h2 : substrFrom (g ++ "." ++ rest) (g.data.length + 1) = rest := by
    unfold substrFrom
    rw [hd]
    have : List.drop (g.data.length + 1) (g.data ++ '.' :: rest.data) = rest.data := by
      rw [List.drop_append_eq_append_drop]
      simp
    rw [this]
  unfold Shm.varIfExists
  rw [hf]
  simp only [h1, h2]
  cases s.groupIfExists g <;> rfl

theorem path_split (path : String) (h : '.' ∈ path.data) :
    ∃ g rest : String, '.' ∉ g.data ∧ path = g ++ "." ++ rest := by
  cases hf : findChar '.' path.data with
  | none => exact absurd h ((findChar_eq_none _ _).1 hf)
  | some d =>
    obtain ⟨-, h2, h3⟩ := findChar_some _ _ d hf
    refine ⟨⟨path.data.take d⟩, ⟨path.data.drop (d + 1)⟩, h2, ?_⟩
    apply String.ext
    simp only [String.data_append]
    simpa using h3

theorem ctor_groups_vars :
    ∀ e ∈ Shm.ctor.m_groups, ∀ f ∈ ((Shm.ctor.deref e.2).map Group.m_vars).getD [],
      f.2 ∈ Shm.declared ∧ f.2.path Shm.ctor = some (e.1 ++ "." ++ f.1) := by
  decide

theorem ctor_tagMap_slots :
    ∀ i ∈ List.range 44, ∀ v ∈ ((Shm.ctor.m_tagMap.get? i).join).toList,
      v ∈ Shm.declared ∧ v.tag = (i : Int) := by
  decide

theorem ctor_varIfExists_some (path : String) (v : Var)
    (h : Shm.ctor.varIfExists path = some v) :
    v ∈ Shm.declared ∧ v.path Shm.ctor = some path := by
  by_cases hd : '.' ∈ path.data
  · obtain ⟨g, rest, hg, rfl⟩ := path_split path hd
    rw [varIfExists_split _ _ _ hg] at h
    cases hp : Shm.ctor.groupIfExists g with
    | none => rw [hp] at h; simp at h
    | some p =>
      rw [hp, Option.some_bind] at h
      cases hgrp : Shm.ctor.deref p with
      | none => rw [hgrp] at h; simp at h
      | some grp =>
        rw [hgrp, Option.some_bind] at h
        have h1 := mapFind_some_mem _ _ _ hp
        have h2 := mapFind_some_mem _ _ _ h
        have := ctor_groups_vars (g, p) h1 (rest, v) (by simpa [hgrp] using h2)
        exact this
  · rw [varIfExists_no_dot _ _ hd] at h
    simp at h

theorem ctor_varIfExistsTag_some (tag : Int) (v : Var)
    (h : Shm.ctor.varIfExistsTag tag = some v) : v ∈ Shm.declared ∧ v.tag = tag := by
  unfold Shm.varIfExistsTag at h
  split_ifs at h with hc
  rw [not_or, not_lt] at hc
  have hlen : Shm.ctor.m_tagMap.length = 44 := by decide
  have hlt : tag.toNat < 44 := by
    by_contra hge
    rw [List.get?_eq_getElem?, List.getElem?_eq_none (by omega)] at h
    simp at h
  have := ctor_tagMap_slots tag.toNat (List.mem_range.2 hlt) v (by rw [h]; simp)
  refine ⟨this.1, ?_⟩
  rw [this.2]
  omega

theorem toSizeT_of_lt (k : Int) (h0 : 0 ≤ k) (h1 : k < 4294967296) : toSizeT k = k.toNat := by
  unfold toSizeT
  rw [Int.emod_eq_of_lt h0 h1]

theorem array_some (g : Group) (pfx : String) (arr : List (Option Var))
    (h : g.array pfx = some arr) :
    DenseIndices (parsedIndices g pfx) ∧
    arr = arrayFill (arrayScan pfx g.m_vars).indexMap
      (List.replicate (toSizeT ((arrayScan pfx g.m_vars).maxI + 1)) none) := by
  constructor
  · by_contra hd
    rw [(array_eq_none_iff g pfx).2 hd] at h
    simp at h
  · unfold Group.array at h
    simp only at h
    split_ifs at h
    exact (Option.some.inj h).symm

theorem array_some_entries (g : Group) (pfx : String) (arr : List (Option Var))
    (h : g.array pfx = some arr) :
    (arrayScan pfx g.m_vars).maxI ∈ parsedIndices g pfx ∧
    (∀ k ∈ parsedIndices g pfx, 0 ≤ k ∧ k ≤ (arrayScan pfx g.m_vars).maxI) ∧
    (arr.length : Int) = (arrayScan pfx g.m_vars).maxI + 1 ∧
    (∀ k : Int, 0 ≤ k → k ≤ (arrayScan pfx g.m_vars).maxI → k ∈ parsedIndices g pfx) ∧
    (∀ e ∈ (arrayScan pfx g.m_vars).indexMap,
      arr.get? e.1.toNat = some (some e.2)) := by
  obtain ⟨hD, harr⟩ := array_some g pfx arr h
  obtain ⟨h0, hge, m, hm, hmx, hcard⟩ := hD
  obtain ⟨hnd, hmem, -, hbd, -, hne, hlen⟩ := scan_facts g pfx
  have hr := parsedIndices_range g pfx
  obtain ⟨-, hmaxI⟩ := hne (List.ne_nil_of_mem h0)
  have hmaxeq : (arrayScan pfx g.m_vars).maxI = m := by
    have := (hbd m hm).2
    have := hmx _ hmaxI
    omega
  have hM0 := hge _ hm
  have hM1 := (hr _ hm).2
  have hsz : toSizeT ((arrayScan pfx g.m_vars).maxI + 1) = (m + 1).toNat := by
    rw [hmaxeq]
    exact toSizeT_of_lt _ (by omega) (by unfold INT_MAX at hM1; omega)
  have hlenarr : arr.length = (m + 1).toNat := by
    rw [harr, arrayFill_length, List.length_replicate, hsz]
  have hkeys : ∀ k ∈ (arrayScan pfx g.m_vars).indexMap.map Prod.fst, 0 ≤ k ∧ k ≤ m := by
    intro k hk
    rw [hmem] at hk
    exact ⟨hge k hk, hmx k hk⟩
  have hfull := nodup_range_full _ m hM0 hnd hkeys
    (by rw [List.length_map, hlen]; exact hcard.symm)
  have hkT : ∀ e ∈ (arrayScan pfx g.m_vars).indexMap, toSizeT e.1 = e.1.toNat := by
    intro e he
    have := hkeys e.1 (List.mem_map_of_mem Prod.fst he)
    exact toSizeT_of_nonneg _ this.1 (le_trans this.2 hM1)
  have hndT : ((arrayScan pfx g.m_vars).indexMap.map fun x => toSizeT x.1).Nodup := by
    have : ((arrayScan pfx g.m_vars).indexMap.map fun x => toSizeT x.1) =
        ((arrayScan pfx g.m_vars).indexMap.map Prod.fst).map toSizeT := by
      rw [List.map_map]; rfl
    rw [this]
    refine List.Nodup.map_on ?_ hnd
    intro a ha b hb hab
    obtain ⟨ea, hea, rfl⟩ := List.mem_map.1 ha
    obtain ⟨eb, heb, rfl⟩ := List.mem_map.1 hb
    rw [hkT ea hea, hkT eb heb] at hab
    have ha0 := (hkeys _ ha).1
    have hb0 := (hkeys _ hb).1
    omega
  refine ⟨hmaxeq ▸ hm, fun k hk => ⟨hge k hk, hmaxeq ▸ hmx k hk⟩, ?_, ?_, ?_⟩
  · rw [hlenarr, hmaxeq]
    omega
  · intro k hk0 hk1
    rw [hmaxeq] at hk1
    exact (hmem k).1 (hfull k hk0 hk1)
  · intro e he
    have hb := hkeys e.1 (List.mem_map_of_mem Prod.fst he)
    have := arrayFill_get_mem (arrayScan pfx g.m_vars).indexMap
      (List.replicate (toSizeT ((arrayScan pfx g.m_vars).maxI + 1)) none) e hndT he
      (by rw [List.length_replicate, hsz, hkT e he]; omega)
    rw [hkT e he, ← harr] at this
    exact this

theorem atoi_no_number (s : String) (c : Char) (r : List Char) (hs : s.data = c :: r)
    (h1 : isspace c = false) (h2 : isdigit c = false) (h3 : c ≠ '-') (h4 : c ≠ '+') :
    atoi s = 0 := by
  unfold atoi
  rw [hs, List.dropWhile_cons_of_neg (by simp [h1])]
  simp only [h3, h4, if_false]
  simp [parseDigits, h2, clampInt, INT_MAX, INT_MIN]

theorem mem_vars_matching (g : Group) (pfx : String) (v : Var) :
    v ∈ matchingVars pfx g.m_vars ↔
      v ∈ g.vars ∧ pfx.length < v.name.length ∧ pfx.data <+: v.name.data := by
  rw [mem_matchingVars, nameMatches_iff]
  unfold Group.vars
  rw [List.mem_map]

/-! ## Typed access, continued -/

/-- Counterexample to claim C11 as stated: on the FLOAT variable `thrusters.t3`, `set<int>(16777217)`
succeeds, but the following `get<float>()` returns 16777216, not 16777217: the conversion
`(float)value` rounds to a 24-bit significand. -/
theorem C11_counterexample :
    (Var.mkFloat "t3" 10 ⟨10, "t3"⟩ 35).type = VType.FLOAT ∧
    INT_MIN ≤ 16777217 ∧ (16777217 : Int) ≤ INT_MAX ∧
    ∃ m', (Var.mkFloat "t3" 10 ⟨10, "t3"⟩ 35).setInt Shm.initMem 16777217 = some m' ∧
      (Var.mkFloat "t3" 10 ⟨10, "t3"⟩ 35).getFloat m' = some 16777216 ∧
      (Var.mkFloat "t3" 10 ⟨10, "t3"⟩ 35).getFloat m' ≠ some 16777217 := by
  have hr : intToFloat 16777217 = 16777216 := by
    have h : roundNat24 16777217 = 16777216 := by decide
    simp [intToFloat, h]
  refine ⟨rfl, by decide, by decide,
    Shm.initMem.writeFloat ⟨10, "t3"⟩ (intToFloat 16777217), rfl, ?_, ?_⟩
  · simp [Var.getFloat, Var.verifyType, Var.mkFloat, Mem.writeFloat, hr]
  · simp [Var.getFloat, Var.verifyType, Var.mkFloat, Mem.writeFloat, hr]

/-- Claim C11, amended: on a FLOAT variable `set<int>(n)` succeeds for every integer `n`, and a
following `get<float>()` returns `n` converted to float; the value is exactly `n` whenever
the magnitude of `n` is at most `2 ^ 24 = 16777216`. -/
theorem C11_set_int_on_float (v : Var) (m : Mem) (n : Int) (hv : v.type = VType.FLOAT) :
    ∃ m', v.setInt m n = some m' ∧ v.getFloat m' = some (intToFloat n) ∧
      (n.natAbs ≤ 16777216 → v.getFloat m' = some (n : ℚ)) := by
  simp only [Var.type] at hv
  have hg : v.getFloat (m.writeFloat v.m_value (intToFloat n)) = some (intToFloat n) := by
    simp [Var.getFloat, Var.verifyType, hv, Mem.writeFloat]
  refine ⟨m.writeFloat v.m_value (intToFloat n), ?_, hg, fun hs => ?_⟩
  · simp [Var.setInt, Var.setFloat, Var.verifyType, hv]
  · rw [hg, intToFloat_small n hs]

/-- Instance of the amended claim C11 at `thrusters.t3` and `n = 5`. -/
theorem C11_set_int_on_float_witness :
    (Var.mkFloat "t3" 10 ⟨10, "t3"⟩ 35).type = VType.FLOAT ∧
    ∃ m', (Var.mkFloat "t3" 10 ⟨10, "t3"⟩ 35).setInt Shm.initMem 5 = some m' ∧
      (Var.mkFloat "t3" 10 ⟨10, "t3"⟩ 35).getFloat m' = some (intToFloat 5) ∧
      ((5 : Int).natAbs ≤ 16777216 →
        (Var.mkFloat "t3" 10 ⟨10, "t3"⟩ 35).getFloat m' = some ((5 : Int) : ℚ)) :=
  ⟨rfl, C11_set_int_on_float (Var.mkFloat "t3" 10 ⟨10, "t3"⟩ 35) Shm.initMem 5 rfl⟩

/-- Claim C12: on a variable of declared type BOOL or STRING, `set<int>(x)` and `get<float>()`
are fatal type errors, and the failing `set` ends with the memory as it was before the call. -/
theorem C12_bool_string_fatal (v : Var) (m : Mem)
    (hv : v.type = VType.BOOL ∨ v.type = VType.STRING) :
    (∀ x : Int, v.setInt m x = none ∧ v.setExec m (SetCall.int x) = (m, false)) ∧
    v.getFloat m = none := by
  simp only [Var.type] at hv
  refine ⟨fun x => ⟨?_, ?_⟩, ?_⟩
  · rcases hv with h | h <;> simp [Var.setInt, Var.verifyType, h]
  · rcases hv with h | h <;> simp [Var.setExec, Var.verifyThenStore, Var.verifyType, h]
  · rcases hv with h | h <;> simp [Var.getFloat, Var.verifyType, h]

/-- Instance of claim C12 at the BOOL variable `switches.softKill`. -/
theorem C12_bool_string_fatal_witness :
    ((Var.mkBool "softKill" 8 ⟨8, "softKill"⟩ 30).type = VType.BOOL ∨
      (Var.mkBool "softKill" 8 ⟨8, "softKill"⟩ 30).type = VType.STRING) ∧
    (∀ x : Int, (Var.mkBool "softKill" 8 ⟨8, "softKill"⟩ 30).setInt Shm.initMem x = none ∧
      (Var.mkBool "softKill" 8 ⟨8, "softKill"⟩ 30).setExec Shm.initMem (SetCall.int x) =
        (Shm.initMem, false)) ∧
    (Var.mkBool "softKill" 8 ⟨8, "softKill"⟩ 30).getFloat Shm.initMem = none :=
  ⟨Or.inl rfl,
    C12_bool_string_fatal (Var.mkBool "softKill" 8 ⟨8, "softKill"⟩ 30) Shm.initMem (Or.inl rfl)⟩

/-! ## Lookups -/

/-- Claim C13: the `IfExists` lookups contain no fatal path and always return; the result is
absent for a name that is not a key of the map, for a path without `.` or with an unknown
group, for a path that is not the path of a declared variable, and for a tag that is
negative, beyond the table or not the tag of a declared variable. The two operations that
could leave the bounds stay inside them: `substr(dotPos + 1)` starts within the string and
the table has `TAG_MAP_SIZE` slots. -/
theorem C13_ifexists_absent :
    (∀ (g : Group) (name : String), (∀ e ∈ g.m_vars, e.1 ≠ name) →
      g.varIfExists name = none) ∧
    (∀ (s : Shm) (name : String), (∀ e ∈ s.m_groups, e.1 ≠ name) →
      s.groupIfExists name = none) ∧
    (∀ (s : Shm) (path : String), '.' ∉ path.data → s.varIfExists path = none) ∧
    (∀ (s : Shm) (g rest : String), '.' ∉ g.data → s.groupIfExists g = none →
      s.varIfExists (g ++ "." ++ rest) = none) ∧
    (∀ path : String, (∀ v ∈ Shm.declared, v.path Shm.ctor ≠ some path) →
      Shm.ctor.varIfExists path = none) ∧
    (∀ tag : Int, (tag < 0 ∨ (TAG_MAP_SIZE : Int) ≤ tag ∨ ∀ v ∈ Shm.declared, v.tag ≠ tag) →
      Shm.ctor.varIfExistsTag tag = none) ∧
    (∀ (path : String) (d : Nat), strFind path '.' = some d → d + 1 ≤ path.length) ∧
    Shm.ctor.m_tagMap.length = TAG_MAP_SIZE := by
  refine ⟨?_, ?_, varIfExists_no_dot, ?_, ?_, ?_, ?_, by decide⟩
  · intro g name h
    exact (mapFind_eq_none _ _).2 h
  · intro s name h
    exact (mapFind_eq_none _ _).2 h
  · intro s g rest hg hn
    rw [varIfExists_split _ _ _ hg, hn]
    rfl
  · intro path h
    cases hv : Shm.ctor.varIfExists path with
    | none => rfl
    | some v =>
      obtain ⟨h1, h2⟩ := ctor_varIfExists_some path v hv
      exact absurd h2 (h v h1)
  · intro tag h
    cases hv : Shm.ctor.varIfExistsTag tag with
    | none => rfl
    | some v =>
      obtain ⟨h1, h2⟩ := ctor_varIfExistsTag_some tag v hv
      have hr : ∀ w ∈ Shm.declared, 0 ≤ w.tag ∧ w.tag < 44 := by decide
      have := hr v h1
      rcases h with h | h | h
      · omega
      · unfold TAG_MAP_SIZE at h
        omega
      · exact absurd h2 (h v h1)
  · intro path d h
    exact (findChar_some _ _ d h).1

/-- Instance of claim C13 on the constructed registry. -/
theorem C13_ifexists_absent_witness :
    (Group_thrusters 10).varIfExists "t8" = none ∧
    Shm.ctor.groupIfExists "motors" = none ∧
    Shm.ctor.varIfExists "thrusters" = none ∧
    Shm.ctor.varIfExists ("motors" ++ "." ++ "t3") = none ∧
    Shm.ctor.varIfExists "thrusters.t8" = none ∧
    Shm.ctor.varIfExistsTag (-1) = none ∧
    Shm.ctor.varIfExistsTag 44 = none ∧
    (5 : Nat) + 1 ≤ "motor.t3".length :=
  ⟨C13_ifexists_absent.1 (Group_thrusters 10) "t8" (by decide),
   C13_ifexists_absent.2.1 Shm.ctor "motors" (by decide),
   C13_ifexists_absent.2.2.1 Shm.ctor "thrusters" (by decide),
   C13_ifexists_absent.2.2.2.1 Shm.ctor "motors" "t3" (by decide) (by decide),
   C13_ifexists_absent.2.2.2.2.1 "thrusters.t8" (by decide),
   C13_ifexists_absent.2.2.2.2.2.1 (-1) (Or.inl (by decide)),
   C13_ifexists_absent.2.2.2.2.2.1 44 (Or.inr (Or.inl (by decide))),
   C13_ifexists_absent.2.2.2.2.2.2.1 "motor.t3" 5 (by decide)⟩

/-- Claim C14: `Shm::var(path)`, `Shm::var(tag)`, `Shm::group(name)` and `Group::var(name)` are
fatal exactly when the corresponding `IfExists` lookup returns absent, and otherwise return
what that lookup returns. -/
theorem C14_fatal_agrees :
    (∀ (s : Shm) (path : String),
      (s.var path = none ↔ s.varIfExists path = none) ∧
      ∀ v, s.varIfExists path = some v → s.var path = some v) ∧
    (∀ (s : Shm) (tag : Int),
      (s.varTag tag = none ↔ s.varIfExistsTag tag = none) ∧
      ∀ v, s.varIfExistsTag tag = some v → s.varTag tag = some v) ∧
    (∀ (s : Shm) (name : String),
      (s.group name = none ↔ s.groupIfExists name = none) ∧
      ∀ g, s.groupIfExists name = some g → s.group name = some g) ∧
    (∀ (g : Group) (name : String),
      (g.var name = none ↔ g.varIfExists name = none) ∧
      ∀ v, g.varIfExists name = some v → g.var name = some v) := by
  refine ⟨fun s path => ?_, fun s tag => ?_, fun s name => ?_, fun g name => ?_⟩
  · unfold Shm.var
    cases s.varIfExists path <;> simp
  · unfold Shm.varTag
    cases s.varIfExistsTag tag <;> simp
  · unfold Shm.group
    cases s.groupIfExists name <;> simp
  · unfold Group.var
    cases g.varIfExists name <;> simp

/-- Instance of claim C14 on the constructed registry: a path that resolves and one that
does not. -/
theorem C14_fatal_agrees_witness :
    Shm.ctor.var "thrusters.t3" = some (Var.mkFloat "t3" 10 ⟨10, "t3"⟩ 35) ∧
    Shm.ctor.var "thrusters.t8" = none ∧
    Shm.ctor.varTag 44 = none :=
  ⟨(C14_fatal_agrees.1 Shm.ctor "thrusters.t3").2 _ (by decide),
   (C14_fatal_agrees.1 Shm.ctor "thrusters.t8").1.2 (by decide),
   (C14_fatal_agrees.2.1 Shm.ctor 44).1.2 (by decide)⟩

/-- Claim C15: a path `g.rest` whose part `g` before the first `.` contains no `.` resolves the
group named `g` and looks up the whole remainder `rest` (further dots included) in it; every
path containing a `.` has this shape; a path without `.` resolves to absent. -/
theorem C15_first_dot (s : Shm) :
    (∀ g rest : String, '.' ∉ g.data →
      s.varIfExists (g ++ "." ++ rest) =
        (s.groupIfExists g).bind fun p => (s.deref p).bind fun grp => grp.varIfExists rest) ∧
    (∀ path : String, '.' ∈ path.data →
      ∃ g rest : String, '.' ∉ g.data ∧ path = g ++ "." ++ rest) ∧
    (∀ path : String, '.' ∉ path.data → s.varIfExists path = none) :=
  ⟨varIfExists_split s, path_split, varIfExists_no_dot s⟩

/-- Instance of claim C15 at the path `thrusters.t3.x` and at `thrusters`. -/
theorem C15_first_dot_witness :
    (Shm.ctor.varIfExists ("thrusters" ++ "." ++ "t3.x") =
      (Shm.ctor.groupIfExists "thrusters").bind fun p =>
        (Shm.ctor.deref p).bind fun grp => grp.varIfExists "t3.x") ∧
    (∃ g rest : String, '.' ∉ g.data ∧ "thrusters.t3.x" = g ++ "." ++ rest) ∧
    Shm.ctor.varIfExists "thrusters" = none :=
  ⟨(C15_first_dot Shm.ctor).1 "thrusters" "t3.x" (by decide),
   (C15_first_dot Shm.ctor).2.1 "thrusters.t3.x" (by decide),
   (C15_first_dot Shm.ctor).2.2 "thrusters" (by decide)⟩

/-- Claim C16: for every declared variable `v`, every memory and every `set` call on `v`,
whether it returns or halts, the registry structure (groups, maps, tag table, hence the name,
type, tag and group of every variable) is unchanged, every declared variable is still found
by tag and by path, and the stored value of every other declared variable is unchanged. -/
theorem C16_set_frame (m : Mem) (v : Var) (c : SetCall) (hv : v ∈ Shm.declared) :
    ((Shm.ctor.withMem m).afterSet v c).objs = (Shm.ctor.withMem m).objs ∧
    ((Shm.ctor.withMem m).afterSet v c).m_groups = (Shm.ctor.withMem m).m_groups ∧
    ((Shm.ctor.withMem m).afterSet v c).m_tagMap = (Shm.ctor.withMem m).m_tagMap ∧
    (∀ w ∈ Shm.declared, ((Shm.ctor.withMem m).afterSet v c).varTag w.tag = some w ∧
      ∃ p, w.path ((Shm.ctor.withMem m).afterSet v c) = some p ∧
        ((Shm.ctor.withMem m).afterSet v c).var p = some w) ∧
    (∀ w ∈ Shm.declared, w ≠ v →
      ((Shm.ctor.withMem m).afterSet v c).mem.ints w.m_value = m.ints w.m_value ∧
      ((Shm.ctor.withMem m).afterSet v c).mem.floats w.m_value = m.floats w.m_value ∧
      ((Shm.ctor.withMem m).afterSet v c).mem.bools w.m_value = m.bools w.m_value ∧
      ((Shm.ctor.withMem m).afterSet v c).mem.strings w.m_value = m.strings w.m_value) := by
  refine ⟨rfl, rfl, rfl, ?_, ?_⟩
  · have h : ∀ w ∈ Shm.declared, Shm.ctor.varTag w.tag = some w ∧
        ∃ p, w.path Shm.ctor = some p ∧ Shm.ctor.var p = some w := by decide
    exact h
  · intro w hw hne
    have hcell : w.m_value ≠ v.m_value := by
      have hinj : ∀ a ∈ Shm.declared, ∀ b ∈ Shm.declared,
          a.m_value = b.m_value → a = b := by decide
      exact fun heq => hne (hinj w hw v hv heq)
    exact setExec_frame v m c w.m_value hcell

/-- Instance of claim C16: `set<float>(0.75)` on `thrusters.t3` leaves `thrusters.t4` as it was. -/
theorem C16_set_frame_witness :
    Var.mkFloat "t3" 10 ⟨10, "t3"⟩ 35 ∈ Shm.declared ∧
    ((Shm.ctor.withMem Shm.initMem).afterSet (Var.mkFloat "t3" 10 ⟨10, "t3"⟩ 35)
      (SetCall.float (3 / 4))).mem.floats ⟨10, "t4"⟩ = Shm.initMem.floats ⟨10, "t4"⟩ :=
  ⟨by decide,
   ((C16_set_frame Shm.initMem (Var.mkFloat "t3" 10 ⟨10, "t3"⟩ 35) (SetCall.float (3 / 4))
      (by decide)).2.2.2.2 (Var.mkFloat "t4" 10 ⟨10, "t4"⟩ 36) (by decide) (by decide)).2.1⟩

/-! ## `Group::array`, continued -/

/-- Claim C17: whenever `Group::array(pfx)` returns a sequence, its length is the largest parsed
index plus one and at least 1, the parsed indices are exactly `0 .. length - 1`, and every
entry `i` is populated with a member whose name starts with `pfx`, is longer than `pfx`, and
whose remainder parses to `i`. -/
theorem C17_array_sound (g : Group) (pfx : String) (arr : List (Option Var))
    (h : g.array pfx = some arr) :
    1 ≤ arr.length ∧
    (∃ m ∈ parsedIndices g pfx,
      (∀ k ∈ parsedIndices g pfx, k ≤ m) ∧ (arr.length : Int) = m + 1) ∧
    (∀ k : Int, k ∈ parsedIndices g pfx ↔ 0 ≤ k ∧ k < (arr.length : Int)) ∧
    (∀ i, i < arr.length → ∃ v, arr.get? i = some (some v) ∧ v ∈ g.vars ∧
      pfx.length < v.name.length ∧ pfx.data <+: v.name.data ∧
      atoi (substrFrom v.name pfx.length) = (i : Int)) := by
  obtain ⟨hmax, hrange, hlen, hfull, hent⟩ := array_some_entries g pfx arr h
  obtain ⟨-, hmem, hentry, -, -, -, -⟩ := scan_facts g pfx
  have hM0 := (hrange _ hmax).1
  refine ⟨by omega, ⟨_, hmax, fun k hk => (hrange k hk).2, hlen⟩, ?_, ?_⟩
  · intro k
    constructor
    · intro hk
      have := hrange k hk
      omega
    · rintro ⟨h0, h1⟩
      exact hfull k h0 (by omega)
  · intro i hi
    have hik : (i : Int) ∈ (arrayScan pfx g.m_vars).indexMap.map Prod.fst :=
      (hmem _).2 (hfull i (by omega) (by omega))
    obtain ⟨e, he, hei⟩ := List.mem_map.1 hik
    obtain ⟨hev, hep⟩ := hentry e he
    have hget := hent e he
    rw [hei] at hget
    rw [mem_vars_matching] at hev
    refine ⟨e.2, by simpa using hget, hev.1, hev.2.1, hev.2.2, ?_⟩
    have : parsedIndex pfx e.2 = (i : Int) := by rw [← hep, hei]
    exact this

/-- Instance of claim C17 at `array("t")` on the thrusters group. -/
theorem C17_array_sound_witness :
    (Group_thrusters 10).array "t" = some ((Group_thrusters.decls 10).map some) ∧
    1 ≤ ((Group_thrusters.decls 10).map some).length ∧
    ∀ i, i < ((Group_thrusters.decls 10).map some).length →
      ∃ v, ((Group_thrusters.decls 10).map some).get? i = some (some v) ∧
        v ∈ (Group_thrusters 10).vars ∧
        "t".length < v.name.length ∧ "t".data <+: v.name.data ∧
        atoi (substrFrom v.name "t".length) = (i : Int) :=
  ⟨by decide,
   (C17_array_sound (Group_thrusters 10) "t" _ (by decide)).1,
   (C17_array_sound (Group_thrusters 10) "t" _ (by decide)).2.2.2⟩

/-- Counterexample to claim C18 as stated: in the led group `pattern` starts with `p`, its
remainder `attern` is not a base-10 integer, yet it is given the index 0 and `array("p")`
returns it (or `periodMs`, when the map is iterated the other way round). -/
theorem C18_counterexample :
    Var.mkInt "pattern" 3 ⟨3, "pattern"⟩ 11 ∈ (Group_led 3).vars ∧
    ("p".length < "pattern".length ∧ "p".data <+: "pattern".data) ∧
    isDecimalNumeral (substrFrom "pattern" "p".length) = false ∧
    ((0 : Int), Var.mkInt "pattern" 3 ⟨3, "pattern"⟩ 11) ∈
      (arrayScan "p" (Group_led 3).m_vars).indexMap ∧
    (Group_led 3).array "p" = some [some (Var.mkInt "pattern" 3 ⟨3, "pattern"⟩ 11)] ∧
    (⟨"led", (Group_led 3).m_vars.reverse⟩ : Group).array "p" =
      some [some (Var.mkInt "periodMs" 3 ⟨3, "periodMs"⟩ 12)] := by
  decide

/-- Claim C18, amended: every member whose name starts with `pfx` and is longer than `pfx` is
given the index `atoi(remainder)`, whatever the remainder; the index is 0 when the remainder
begins with a character that is neither white space, a sign nor a digit; and when the call
succeeds the entry at that index holds a matching member with that index. -/
theorem C18_array_matches_any_suffix (g : Group) (pfx : String) (v : Var) (hv : v ∈ g.vars)
    (hm : pfx.length < v.name.length ∧ pfx.data <+: v.name.data) :
    atoi (substrFrom v.name pfx.length) ∈ (arrayScan pfx g.m_vars).indexMap.map Prod.fst ∧
    (∀ c r, (substrFrom v.name pfx.length).data = c :: r → isspace c = false →
      isdigit c = false → c ≠ '-' → c ≠ '+' → atoi (substrFrom v.name pfx.length) = 0) ∧
    (∀ arr, g.array pfx = some arr →
      ∃ w, arr.get? (atoi (substrFrom v.name pfx.length)).toNat = some (some w) ∧
        w ∈ g.vars ∧ (pfx.length < w.name.length ∧ pfx.data <+: w.name.data) ∧
        atoi (substrFrom w.name pfx.length) = atoi (substrFrom v.name pfx.length)) := by
  obtain ⟨-, hmem, hentry, -, -, -, -⟩ := scan_facts g pfx
  have hvm : v ∈ matchingVars pfx g.m_vars := (mem_vars_matching g pfx v).2 ⟨hv, hm⟩
  have hidx : parsedIndex pfx v ∈ parsedIndices g pfx := List.mem_map_of_mem _ hvm
  have hkey := (hmem _).2 hidx
  refine ⟨hkey, fun c r hs h1 h2 h3 h4 => atoi_no_number _ c r hs h1 h2 h3 h4, ?_⟩
  intro arr harr
  obtain ⟨-, -, -, -, hent⟩ := array_some_entries g pfx arr harr
  obtain ⟨e, he, hei⟩ := List.mem_map.1 hkey
  obtain ⟨hev, hep⟩ := hentry e he
  have hget := hent e he
  rw [hei] at hget
  rw [mem_vars_matching] at hev
  refine ⟨e.2, hget, hev.1, hev.2, ?_⟩
  have : parsedIndex pfx e.2 = parsedIndex pfx v := by rw [← hep, hei]
  exact this

/-- Instance of the amended claim C18 at `periodMs` in the led group. -/
theorem C18_array_matches_any_suffix_witness :
    (Var.mkInt "periodMs" 3 ⟨3, "periodMs"⟩ 12 ∈ (Group_led 3).vars ∧
      "p".length < "periodMs".length ∧ "p".data <+: "periodMs".data) ∧
    atoi (substrFrom (Var.mkInt "periodMs" 3 ⟨3, "periodMs"⟩ 12).name "p".length) ∈
      (arrayScan "p" (Group_led 3).m_vars).indexMap.map Prod.fst :=
  ⟨by decide,
   (C18_array_matches_any_suffix (Group_led 3) "p" (Var.mkInt "periodMs" 3 ⟨3, "periodMs"⟩ 12)
      (by decide) (by decide)).1⟩

/-- Claim C19: when no member name is longer than `pfx` and starts with it, `Group::array(pfx)`
fails fatally: the scan leaves `minI = INT_MAX`, which is not 0, so the wrapped value of
`indexMap.size() - 1` is never what lets the check pass (and it differs from `maxI` anyway). -/
theorem C19_no_match_fatal (g : Group) (pfx : String)
    (h : ∀ v ∈ g.vars, ¬ (pfx.length < v.name.length ∧ pfx.data <+: v.name.data)) :
    g.array pfx = none ∧
    (arrayScan pfx g.m_vars).indexMap = [] ∧
    (arrayScan pfx g.m_vars).minI = INT_MAX ∧
    (arrayScan pfx g.m_vars).maxI = INT_MIN ∧
    sizePred 0 = 4294967295 ∧ toSizeT INT_MIN ≠ sizePred 0 := by
  have hnil : matchingVars pfx g.m_vars = [] := by
    rw [List.eq_nil_iff_forall_not_mem]
    intro v hv
    rw [mem_vars_matching] at hv
    exact h v hv.1 hv.2
  have hI : parsedIndices g pfx = [] := by
    unfold parsedIndices
    rw [hnil]
    rfl
  obtain ⟨-, -, -, -, hn, -, hlen⟩ := scan_facts g pfx
  refine ⟨?_, ?_, (hn hI).1, (hn hI).2, by decide, by decide⟩
  · rw [array_eq_none_iff, hI]
    rintro ⟨h0, -⟩
    simp at h0
  · rw [hI] at hlen
    exact List.eq_nil_of_length_eq_zero (by simpa using hlen)

/-- Instance of claim C19: `array("t")` on the led group. -/
theorem C19_no_match_fatal_witness :
    (∀ v ∈ (Group_led 3).vars,
      ¬ ("t".length < v.name.length ∧ "t".data <+: v.name.data)) ∧
    (Group_led 3).array "t" = none :=
  ⟨by decide, (C19_no_match_fatal (Group_led 3) "t" (by decide)).1⟩

/-! ## The tag table -/

/-- Claim C20: the twelve groups declare 44 variables whose tags are exactly 0..43, each once;
every tag in 0..43 resolves through `Shm::varIfExists(tag)` to the variable carrying it, and
no slot of the tag table is left unpopulated. -/
theorem C20_tags_dense :
    Shm.groupDecls.length = 12 ∧ Shm.declared.length = 44 ∧
    Shm.declared.map Var.tag = (List.range 44).map (fun i : Nat => (i : Int)) ∧
    (∀ i ∈ List.range 44, ∃ v ∈ Shm.declared,
      v.tag = (i : Int) ∧ Shm.ctor.varIfExistsTag (i : Int) = some v) ∧
    (∀ i ∈ List.range 44, Shm.ctor.m_tagMap.get? i ≠ some none) ∧
    Shm.ctor.m_tagMap.length = 44 := by
  decide

end Jankdrone
